import Mathlib

/-!
Verification of the relationship-introspection layer of the repository
(`src/packages/ember-data/lib/system/relationships/ext.js`) and of the JSON
serializer behaviour pinned down by its test suite (`src/unnamed/part_000`).

The host framework's reactive object system is embedded as plain data:
JavaScript objects and `Ember.Map` / `Ember.MapWithDefault` instances become
association lists, model classes become records carrying their declared
computed-property metadata and an optional superclass, and `Ember.assert`
failures become `Except.error` results carrying the assertion message
(assertion messages are embedded without the source's quoting punctuation).
-/

namespace EmberData

/-- Association-list lookup; models JavaScript property access and
`Ember.Map#get`. -/
def lookupAssoc {κ α : Type} [DecidableEq κ] : List (κ × α) → κ → Option α
  | [], _ => none
  | p :: rest, k => if p.1 = k then some p.2 else lookupAssoc rest k

/-- Association-list update; models JavaScript property assignment and
`Ember.Map#set`. -/
def setAssoc {κ α : Type} [DecidableEq κ] : List (κ × α) → κ → α → List (κ × α)
  | [], k, v => [(k, v)]
  | p :: rest, k, v => if p.1 = k then (k, v) :: rest else p :: setAssoc rest k v

/-- Association-list deletion; models the JavaScript delete operator. -/
def delAssoc {κ α : Type} [DecidableEq κ] : List (κ × α) → κ → List (κ × α)
  | [], _ => []
  | p :: rest, k => if p.1 = k then delAssoc rest k else p :: delAssoc rest k

/-- `Ember.MapWithDefault#get` with default value the empty array. -/
def mapGetD {κ α : Type} [DecidableEq κ] (m : List (κ × List α)) (k : κ) : List α :=
  (lookupAssoc m k).getD []

/-- The keys of an association list are pairwise distinct. -/
def keysNodup {κ α : Type} (l : List (κ × α)) : Prop :=
  (l.map Prod.fst).Nodup

/-! ## Data model of the relationship layer

Model classes, their computed-property metadata, and the store's type
resolution, as used by `Model.reopenClass` in
`src/packages/ember-data/lib/system/relationships/ext.js`. -/

/-- A relationship kind, `hasMany` or `belongsTo`. -/
inductive Kind : Type
  | hasMany
  | belongsTo
deriving DecidableEq, Repr

/-- The string stored for a kind (JavaScript uses the strings directly). -/
def kindStr : Kind → String
  | Kind.hasMany => "hasMany"
  | Kind.belongsTo => "belongsTo"

/-- The `options.inverse` setting of a relationship: absent, explicitly
`null`, or an explicit inverse relationship name. -/
inductive InverseOpt : Type
  | unspecified
  | null
  | named (name : String)
deriving DecidableEq, Repr

/-- Metadata attached to a computed property of a model class, as produced by
the attribute and relationship helpers (`meta.isRelationship`,
`meta.isAttribute`, `meta.kind`, `meta.type`, `meta.options.inverse`,
`meta.parentType`). `parentType` holds the string form of the class the
property was declared on, set by the `didDefineProperty` hook. -/
structure PropMeta : Type where
  isRelationship : Bool := false
  isAttribute : Bool := false
  kind : Kind := Kind.belongsTo
  type : String := ""
  inverseOpt : InverseOpt := InverseOpt.unspecified
  parentType : String := ""
deriving DecidableEq, Repr

/-- A model class: its optional superclass (an index into `Env.classes`), its
`typeKey`, its string form (what string concatenation with the class
produces), and its own declared computed properties in declaration order. -/
structure ModelClass : Type where
  superclass : Option Nat := none
  typeKey : String := ""
  className : String := ""
  props : List (String × PropMeta) := []
deriving DecidableEq, Repr

/-- The environment: the registered model classes (a class is an index into
`classes`) and the store's resolution of declared type names to classes. -/
structure Env : Type where
  classes : List ModelClass
  typeMap : List (String × Nat)
deriving DecidableEq, Repr

/-- Modelled from the spec: the store's type resolution used by
`typeForRelationshipMeta` (the `relationship-meta` module is not under
`src/`); a declared target type name resolves to a registered model class or
to nothing ("related type not found"). -/
def resolveName (env : Env) (name : String) : Option Nat :=
  lookupAssoc env.typeMap name

/-- Modelled from the spec: `typeForRelationshipMeta(store, meta)` (the
`relationship-meta` module is not under `src/`); returns the model class the
relationship's declared target type resolves to, if any. -/
def typeForRelationshipMeta (env : Env) (m : PropMeta) : Option Nat :=
  resolveName env m.type

/-- Drop all but the last occurrence of each key (a JavaScript object literal
or redefinition keeps a single slot per property name). -/
def dedupKeys : List (String × PropMeta) → List (String × PropMeta)
  | [] => []
  | p :: rest =>
    if rest.any (fun q => decide (q.1 = p.1)) then dedupKeys rest
    else p :: dedupKeys rest

/-- The computed properties iterated by `eachComputedProperty` for the class
at index `ci`: inherited properties followed by own properties, each property
name visited once, subclass definitions shadowing superclass ones. `fuel`
bounds the superclass chain (instantiated with `env.classes.length`, enough
for every acyclic chain). -/
def allProps (env : Env) : Nat → Nat → List (String × PropMeta)
  | 0, _ => []
  | fuel + 1, ci =>
    match env.classes.get? ci with
    | none => []
    | some c =>
      let own := dedupKeys c.props
      let inherited :=
        match c.superclass with
        | some s => allProps env fuel s
        | none => []
      inherited.filter (fun p => !own.any (fun q => decide (q.1 = p.1))) ++ own

/-- `this.eachComputedProperty`'s iteration list for the class at index `ci`. -/
def eachComputedProps (env : Env) (ci : Nat) : List (String × PropMeta) :=
  allProps env env.classes.length ci

/-- A relationship descriptor as found in `relationshipsByName`. Modelled
from the spec for `relationshipFromMeta` (the `relationship-meta` module is
not under `src/`): the descriptor copies the property's name (`meta.key`) and
kind; `ext.js` then assigns the resolved target type
(`relationship.type = typeForRelationshipMeta(this.store, meta)`). -/
structure RelDesc : Type where
  key : String
  kind : Kind
  type : Option Nat
deriving DecidableEq, Repr

/-- The descriptor `relationshipsByName` stores for property `name` with
metadata `m`. -/
def mkRelDesc (env : Env) (name : String) (m : PropMeta) : RelDesc :=
  { key := name, kind := m.kind, type := typeForRelationshipMeta env m }

/-- The `relationshipsByName` computed property: a map keyed on relationship
name whose values are relationship descriptors. -/
def relationshipsByName (env : Env) (ci : Nat) : List (String × RelDesc) :=
  (eachComputedProps env ci).foldl
    (fun map p =>
      if p.2.isRelationship then setAssoc map p.1 (mkRelDesc env p.1 p.2) else map)
    []

/-- The `relationships` computed property: an `Ember.MapWithDefault` keyed on
the relationship's resolved target type (the key is `none` when the declared
type does not resolve), holding `{name, kind}` entries in iteration order. -/
def relationships (env : Env) (ci : Nat) : List (Option Nat × List (String × Kind)) :=
  (eachComputedProps env ci).foldl
    (fun map p =>
      if p.2.isRelationship then
        let k := typeForRelationshipMeta env p.2
        setAssoc map k (mapGetD map k ++ [(p.1, p.2.kind)])
      else map)
    []

/-- `typeForRelationship(name)`: the target type of the named relationship,
`none` when the name is not a relationship or its type does not resolve
(JavaScript: `relationship && relationship.type`). -/
def typeForRelationship (env : Env) (ci : Nat) (name : String) : Option Nat :=
  match lookupAssoc (relationshipsByName env ci) name with
  | some rel => rel.type
  | none => none

/-- `this.metaForProperty(name)`: the metadata of the named computed
property, if defined. -/
def metaForProperty (env : Env) (ci : Nat) (name : String) : Option PropMeta :=
  lookupAssoc (eachComputedProps env ci) name

/-- The class at index `ti` followed by its superclasses, `fuel`-bounded. -/
def superChain (env : Env) : Nat → Nat → List Nat
  | 0, _ => []
  | fuel + 1, ti =>
    ti ::
      (match (env.classes.get? ti).bind (fun c => c.superclass) with
      | some s => superChain env fuel s
      | none => [])

/-- `findPossibleInverses(type, inverseType)`: the relationships declared on
`inverseType` whose target is `type`, collected for `type` and each of its
superclasses in turn. -/
def findPossibleInverses (env : Env) : Nat → Nat → Nat → List (String × Kind)
  | 0, _, _ => []
  | fuel + 1, ti, inverseTi =>
    mapGetD (relationships env inverseTi) (some ti) ++
      (match (env.classes.get? ti).bind (fun c => c.superclass) with
      | some s => findPossibleInverses env fuel s inverseTi
      | none => [])

/-- The `typeKey` of the class at index `t` (used in assertion messages). -/
def typeKeyOf (env : Env) (t : Nat) : String :=
  match env.classes.get? t with
  | some c => c.typeKey
  | none => ""

/-- The string form of the class at index `t` (used in assertion messages). -/
def classNameOf (env : Env) (t : Nat) : String :=
  match env.classes.get? t with
  | some c => c.className
  | none => ""

/-- The assertion message raised when an explicitly named inverse does not
exist on the related type. -/
def noInverseMsg (inverseName typeKey : String) : String :=
  "We found no inverse relationships by the name of " ++ inverseName ++
    " on the " ++ typeKey ++
    " model. This is most likely due to a missing attribute on your model definition."

/-- The assertion message raised when several possible inverse relationships
are found and none is explicitly specified. -/
def multipleInversesMsg (name thisName inverseName : String) : String :=
  "You defined the " ++ name ++ " relationship on " ++ thisName ++
    ", but multiple possible inverse relationships of type " ++ thisName ++
    " were found on " ++ inverseName ++
    ". Look at http://emberjs.com/guides/models/defining-models/#toc_explicit-inverses for how to explicitly specify inverses"

/-- The descriptor returned by `inverseFor`. -/
structure InverseDesc : Type where
  type : Nat
  name : String
  kind : Kind
deriving DecidableEq, Repr

/-- `inverseFor(name)`: resolves the inverse relationship of the named
relationship. `Except.error` models an `Ember.assert` failure. -/
def inverseFor (env : Env) (ci : Nat) (name : String) : Except String (Option InverseDesc) :=
  match typeForRelationship env ci name with
  | none => Except.ok none
  | some inverseType =>
    match metaForProperty env ci name with
    | none => Except.error "metaForProperty: property not found"
    | some m =>
      match m.inverseOpt with
      | InverseOpt.null => Except.ok none
      | InverseOpt.named inverseName =>
        match lookupAssoc (relationshipsByName env inverseType) inverseName with
        | none => Except.error (noInverseMsg inverseName (typeKeyOf env inverseType))
        | some inv =>
          Except.ok (some { type := inverseType, name := inverseName, kind := inv.kind })
      | InverseOpt.unspecified =>
        match findPossibleInverses env env.classes.length ci inverseType with
        | [] => Except.ok none
        | p :: rest =>
          if rest.isEmpty then
            Except.ok (some { type := inverseType, name := p.1, kind := p.2 })
          else
            Except.error (multipleInversesMsg name (classNameOf env ci) (classNameOf env inverseType))

/-- The assertion message raised by `relatedTypes` when a relationship's
declared target type does not resolve. -/
def relatedTypesMsg (typeName parentType : String) : String :=
  "You specified a hasMany (" ++ typeName ++ ") on " ++ parentType ++ " but " ++
    typeName ++ " was not found."

/-- The `relatedTypes` computed property: the distinct types directly related
to the class, in first-appearance order; asserts that every relationship's
target type resolves. -/
def relatedTypes (env : Env) (ci : Nat) : Except String (List Nat) :=
  (eachComputedProps env ci).foldlM
    (fun types p =>
      if p.2.isRelationship then
        match typeForRelationshipMeta env p.2 with
        | none => Except.error (relatedTypesMsg p.2.type p.2.parentType)
        | some t =>
          if types.contains t then Except.ok types else Except.ok (types ++ [t])
      else Except.ok types)
    []

/-- The `relationshipNames` computed property: the relationship names grouped
by kind. -/
structure RelNames : Type where
  hasMany : List String
  belongsTo : List String
deriving DecidableEq, Repr

/-- `relationshipNames`: pushes each relationship's name onto the list for
its kind. -/
def relationshipNames (env : Env) (ci : Nat) : RelNames :=
  (eachComputedProps env ci).foldl
    (fun names p =>
      if p.2.isRelationship then
        match p.2.kind with
        | Kind.hasMany => { names with hasMany := names.hasMany ++ [p.1] }
        | Kind.belongsTo => { names with belongsTo := names.belongsTo ++ [p.1] }
      else names)
    { hasMany := [], belongsTo := [] }

/-- The `fields` computed property: maps each field name to the string
describing its kind (`meta.kind` for relationships, the string attribute for
attributes). -/
def fields (env : Env) (ci : Nat) : List (String × String) :=
  (eachComputedProps env ci).foldl
    (fun map p =>
      if p.2.isRelationship then setAssoc map p.1 (kindStr p.2.kind)
      else if p.2.isAttribute then setAssoc map p.1 "attribute"
      else map)
    []

/-! ## The JSON serializer

The `DS.JSONSerializer` implementation is not under `src/`; only its test
suite (`src/unnamed/part_000`) is. It is therefore modelled from the spec: a
serializer is "a host-framework component converting between persisted JSON
shape and in-memory model attributes/relationships", configured through the
hooks the spec names (`attrs` overrides, `primaryKey`, `keyForAttribute`,
`keyForRelationship`, `normalizePayload`, polymorphic type serialization),
with the JSON shapes the test suite asserts. -/

/-- A JSON value. -/
inductive JVal : Type
  | str (s : String)
  | num (n : Int)
  | jnull
  | arr (xs : List JVal)
  | obj (o : List (String × JVal))

/-- A JSON object, the payload shape the serializer reads and writes. -/
abbrev JObj : Type := List (String × JVal)

/-- A reference to a related record: its id and its type's `typeKey`. -/
structure RecordRef : Type where
  id : Option String
  typeKey : String
deriving DecidableEq, Repr

/-- A `belongsTo` relationship slot of a record. -/
structure BelongsToEntry : Type where
  name : String
  polymorphic : Bool
  target : Option RecordRef
deriving DecidableEq, Repr

/-- A `hasMany` relationship slot of a record. -/
structure HasManyEntry : Type where
  name : String
  targets : List RecordRef
deriving DecidableEq, Repr

/-- An in-memory record as the serializer sees it: its id, its type's
`typeKey`, its attribute values and its relationship slots. -/
structure RecordData : Type where
  id : Option String := none
  typeKey : String := ""
  attrs : List (String × JVal) := []
  belongsTos : List BelongsToEntry := []
  hasManys : List HasManyEntry := []

/-- The relationship descriptor passed to the relationship serialization
hooks: its key and whether its options mark it polymorphic. -/
structure RelInfo : Type where
  key : String
  polymorphic : Bool
deriving DecidableEq, Repr

/-- Modelled from the spec: a serializer configuration, the host framework's
property-definition and serialization-hook surface (`attrs` overrides,
`primaryKey`, `keyForAttribute`, `keyForRelationship`, `normalizePayload`,
and the polymorphic type serialization hook). -/
structure SerializerConfig : Type where
  attrs : List (String × String) := []
  primaryKey : String := "id"
  keyForAttribute : String → String := fun name => name
  keyForRelationship : String → Kind → String := fun name _ => name
  normalizePayload : JObj → JObj := fun payload => payload
  serializePolymorphicType : RecordData → JObj → RelInfo → JObj := fun _ json _ => json

/-- The payload key an attribute is serialized under: the `attrs` mapping
when one is given, otherwise `keyForAttribute`. -/
def attrPayloadKey (cfg : SerializerConfig) (name : String) : String :=
  match lookupAssoc cfg.attrs name with
  | some k => k
  | none => cfg.keyForAttribute name

/-- Modelled from the spec: `serializeAttribute(record, json, key, attribute)`
writes the record's attribute value under the `attrs`-mapped or
`keyForAttribute`-mapped payload key. -/
def serializeAttribute (cfg : SerializerConfig) (rec : RecordData) (json : JObj)
    (name : String) : JObj :=
  setAssoc json (attrPayloadKey cfg name) ((lookupAssoc rec.attrs name).getD JVal.jnull)

/-- The record's `belongsTo` slot for a relationship name, when the record
has one. -/
def btLookup (rec : RecordData) (name : String) : Option (Option RecordRef) :=
  (rec.belongsTos.find? (fun e => decide (e.name = name))).map (fun e => e.target)

/-- The record's `hasMany` slot for a relationship name, when the record has
one. -/
def hmLookup (rec : RecordData) (name : String) : Option (List RecordRef) :=
  (rec.hasManys.find? (fun e => decide (e.name = name))).map (fun e => e.targets)

/-- The JSON value of a related record's id (null when it has none). -/
def idValue : Option String → JVal
  | some i => JVal.str i
  | none => JVal.jnull

/-- Modelled from the spec: `serializeBelongsTo(record, json, relationship)`
writes the related record's id (or null) under the
`keyForRelationship`-mapped key, and then invokes the polymorphic type
serialization hook when the relationship's options mark it polymorphic. -/
def serializeBelongsTo (cfg : SerializerConfig) (rec : RecordData) (json : JObj)
    (rel : RelInfo) : JObj :=
  let key := cfg.keyForRelationship rel.key Kind.belongsTo
  let value : JVal :=
    match btLookup rec rel.key with
    | some (some ref) => idValue ref.id
    | _ => JVal.jnull
  let json := setAssoc json key value
  if rel.polymorphic then cfg.serializePolymorphicType rec json rel else json

/-- Modelled from the spec: `serializeHasMany(record, json, relationship)`
writes the related records' ids under the `keyForRelationship`-mapped key. -/
def serializeHasMany (cfg : SerializerConfig) (rec : RecordData) (json : JObj)
    (rel : RelInfo) : JObj :=
  let key := cfg.keyForRelationship rel.key Kind.hasMany
  match hmLookup rec rel.key with
  | some refs => setAssoc json key (JVal.arr (refs.map (fun r => idValue r.id)))
  | none => json

/-- Modelled from the spec: `serialize(record, options)` builds the payload:
the record's id under `primaryKey` when `options.includeId` is set, then each
attribute via `serializeAttribute`, then each relationship via
`serializeBelongsTo` / `serializeHasMany`. -/
def serialize (cfg : SerializerConfig) (rec : RecordData) (includeId : Bool) : JObj :=
  let json : JObj := []
  let json :=
    if includeId then
      match rec.id with
      | some i => setAssoc json cfg.primaryKey (JVal.str i)
      | none => json
    else json
  let json := rec.attrs.foldl (fun j p => serializeAttribute cfg rec j p.1) json
  let json :=
    rec.belongsTos.foldl
      (fun j e => serializeBelongsTo cfg rec j { key := e.name, polymorphic := e.polymorphic }) json
  rec.hasManys.foldl
    (fun j e => serializeHasMany cfg rec j { key := e.name, polymorphic := false }) json

/-- The shape of a model type as the extraction side needs it: its attribute
names and its relationship names with their kinds. -/
structure ModelShape : Type where
  attrNames : List String := []
  rels : List (String × Kind) := []
deriving DecidableEq, Repr

/-- Modelled from the spec and the primary-key extraction test: a raw id
value read from the payload is coerced to a string id. -/
def coerceId : JVal → JVal
  | JVal.num n => JVal.str (toString n)
  | v => v

/-- Modelled from the spec: the id found under the configured `primaryKey`
payload key is moved to the id attribute (coerced to a string id), and the
custom payload key is removed. -/
def normalizeId (cfg : SerializerConfig) (hash : JObj) : JObj :=
  match lookupAssoc hash cfg.primaryKey with
  | none => hash
  | some v =>
    let hash := setAssoc hash "id" (coerceId v)
    if cfg.primaryKey = "id" then hash else delAssoc hash cfg.primaryKey

/-- Modelled from the spec: each `attrs` entry moves the value found under
its payload key to the attribute name. -/
def normalizeUsingDeclaredMapping (cfg : SerializerConfig) (hash : JObj) : JObj :=
  cfg.attrs.foldl
    (fun h q =>
      match lookupAssoc h q.2 with
      | some v => delAssoc (setAssoc h q.1 v) q.2
      | none => h)
    hash

/-- Modelled from the spec: each attribute whose `keyForAttribute`-mapped key
differs from its name has its payload value moved to the attribute name. -/
def normalizeAttributes (cfg : SerializerConfig) (shape : ModelShape) (hash : JObj) : JObj :=
  shape.attrNames.foldl
    (fun h name =>
      let key := cfg.keyForAttribute name
      if key ≠ name then
        match lookupAssoc h key with
        | some v => delAssoc (setAssoc h name v) key
        | none => h
      else h)
    hash

/-- Modelled from the spec: each relationship whose
`keyForRelationship`-mapped key differs from its name has its payload value
moved to the relationship name. -/
def normalizeRelationships (cfg : SerializerConfig) (shape : ModelShape) (hash : JObj) : JObj :=
  shape.rels.foldl
    (fun h q =>
      let key := cfg.keyForRelationship q.1 q.2
      if key ≠ q.1 then
        match lookupAssoc h key with
        | some v => delAssoc (setAssoc h q.1 v) key
        | none => h
      else h)
    hash

/-- Modelled from the spec: `normalize(type, hash)` applies the configured
key mappings in reverse: the primary key, the declared `attrs` mapping, then
the attribute and relationship key hooks. -/
def normalize (cfg : SerializerConfig) (shape : ModelShape) (hash : JObj) : JObj :=
  normalizeRelationships cfg shape
    (normalizeAttributes cfg shape
      (normalizeUsingDeclaredMapping cfg (normalizeId cfg hash)))

/-- Modelled from the spec: `extractSingle` first applies the
`normalizePayload` hook to the raw payload and then normalizes the hook's
return value. -/
def extractSingle (cfg : SerializerConfig) (shape : ModelShape) (payload : JObj) : JObj :=
  normalize cfg shape (cfg.normalizePayload payload)

/-- The polymorphic type serialization hook the test suite installs: writes
the related record's `typeKey` under the relationship key suffixed with
TYPE. -/
def typeKeyHook : RecordData → JObj → RelInfo → JObj := fun rec json rel =>
  match btLookup rec rel.key with
  | some (some ref) => setAssoc json (rel.key ++ "TYPE") (JVal.str ref.typeKey)
  | _ => json

/-- The `normalizePayload` hook the test suite installs: returns the nested
object found under the response key of the payload. -/
def responseHook : JObj → JObj := fun payload =>
  match lookupAssoc payload "response" with
  | some (JVal.obj o) => o
  | _ => payload

/-- The descriptor `relationshipsByName` stores for an iterated property, if
any. -/
def rbnEntry (env : Env) (q : String × PropMeta) : Option RelDesc :=
  if q.2.isRelationship then some (mkRelDesc env q.1 q.2) else none

/-- The kind string `fields` stores for an iterated property, if any. -/
def fieldsEntry (q : String × PropMeta) : Option String :=
  if q.2.isRelationship then some (kindStr q.2.kind)
  else if q.2.isAttribute then some "attribute" else none

/-- The entry the `relationships` map holds under `key` for an iterated
property, if any. -/
def relEntryFor (env : Env) (key : Option Nat) (q : String × PropMeta) : Option (String × Kind) :=
  if q.2.isRelationship = true ∧ typeForRelationshipMeta env q.2 = key then some (q.1, q.2.kind)
  else none

/-- The value `serializeBelongsTo` writes: the related record's id, null
when the slot is empty or absent. -/
def btValue (rec : RecordData) (n : String) : JVal :=
  match btLookup rec n with
  | some (some ref) => idValue ref.id
  | _ => JVal.jnull

/-- The value `serializeHasMany` writes for a present slot. -/
def hmValue (rec : RecordData) (n : String) : JVal :=
  JVal.arr (((hmLookup rec n).getD []).map (fun r => idValue r.id))

/-! ## Concrete serializer setups

The configurations, records and payloads of the serializer test suite. -/

/-- The shape of the test suite's `Post` model. -/
def postShape : ModelShape :=
  { attrNames := ["title"], rels := [("comments", Kind.hasMany)] }

/-- A serializer with `attrs: {title: "title_payload_key"}`. -/
def attrsHashCfg : SerializerConfig :=
  { attrs := [("title", "title_payload_key")] }

/-- The payload of the attrs-hash extraction test. -/
def attrsHashPayload : JObj :=
  [("title_payload_key", JVal.str "Rails is omakase")]

/-- The post record of the attrs-hash serialization test. -/
def attrsHashRec : RecordData :=
  { id := some "1", typeKey := "post",
    attrs := [("title", JVal.str "Rails is omakase")],
    belongsTos := [],
    hasManys := [{ name := "comments", targets := [] }] }

/-- A serializer with a custom primary key. -/
def primaryKeyCfg : SerializerConfig :=
  { primaryKey := "_ID_" }

/-- The payload of the primary-key extraction test. -/
def primaryKeyPayload : JObj :=
  [("_ID_", JVal.num 1), ("title", JVal.str "Rails is omakase")]

/-- The post record of the primary-key serialization test. -/
def primaryKeyRec : RecordData :=
  { id := some "1", typeKey := "post",
    attrs := [("title", JVal.str "Rails is omakase")],
    belongsTos := [],
    hasManys := [{ name := "comments", targets := [] }] }

/-- A serializer whose key hooks upcase the attribute and relationship
names. -/
def upperKeysCfg : SerializerConfig :=
  { keyForAttribute := fun name => if name = "title" then "TITLE" else name,
    keyForRelationship := fun name _ => if name = "comments" then "COMMENTS" else name }

/-- The payload of the key-hook extraction tests. -/
def upperKeysPayload : JObj :=
  [("id", JVal.num 1), ("TITLE", JVal.str "Rails is omakase"),
    ("COMMENTS", JVal.arr [JVal.str "1"])]

/-- A comment record with a post `belongsTo` and a post record with a
comments `hasMany`, as the direct serialization tests build them. -/
def upperKeysRec : RecordData :=
  { id := some "1", typeKey := "post",
    attrs := [("title", JVal.str "Rails is omakase")],
    belongsTos := [{ name := "post", polymorphic := false,
                     target := some { id := some "1", typeKey := "post" } }],
    hasManys := [{ name := "comments",
                   targets := [{ id := some "1", typeKey := "comment" }] }] }

/-- A serializer installing the test suite's polymorphic type hook. -/
def polyHookCfg : SerializerConfig :=
  { serializePolymorphicType := typeKeyHook }

/-- The comment record of the polymorphic serialization test. -/
def polyRec : RecordData :=
  { id := none, typeKey := "comment",
    attrs := [("body", JVal.str "Omakase is delicious")],
    belongsTos := [{ name := "post", polymorphic := true,
                     target := some { id := some "1", typeKey := "post" } }],
    hasManys := [] }

/-- A serializer installing the test suite's `normalizePayload` hook. -/
def responseCfg : SerializerConfig :=
  { normalizePayload := responseHook }

/-- The nested payload of the `normalizePayload` test. -/
def responsePayload : JObj :=
  [("response", JVal.obj [("id", JVal.num 1), ("title", JVal.str "Rails is omakase")])]

/-! ## Concrete environments

Concrete model registrations mirroring the test suite's setup, used to
evaluate the relationship layer on closed inputs. -/

/-- The test suite's model setup: `User` (no properties), `Post` with a
title attribute and a comments `hasMany`, `Comment` with a body attribute and
a post `belongsTo`. -/
def blogEnv : Env :=
  { classes :=
      [ { typeKey := "user", className := "App.User", props := [] },
        { typeKey := "post", className := "App.Post",
          props :=
            [ ("title", { isAttribute := true, parentType := "App.Post" }),
              ("comments",
                { isRelationship := true, kind := Kind.hasMany, type := "comment",
                  parentType := "App.Post" }) ] },
        { typeKey := "comment", className := "App.Comment",
          props :=
            [ ("body", { isAttribute := true, parentType := "App.Comment" }),
              ("post",
                { isRelationship := true, kind := Kind.belongsTo, type := "post",
                  parentType := "App.Comment" }) ] } ],
    typeMap := [("user", 0), ("post", 1), ("comment", 2)] }

/-- A registration in which `Post.comments` explicitly names the inverse
`author`, and `Comment.author` targets `User` rather than `Post`. -/
def badInverseEnv : Env :=
  { classes :=
      [ { typeKey := "user", className := "App.User", props := [] },
        { typeKey := "post", className := "App.Post",
          props :=
            [ ("comments",
                { isRelationship := true, kind := Kind.hasMany, type := "comment",
                  inverseOpt := InverseOpt.named "author", parentType := "App.Post" }) ] },
        { typeKey := "comment", className := "App.Comment",
          props :=
            [ ("author",
                { isRelationship := true, kind := Kind.belongsTo, type := "user",
                  parentType := "App.Comment" }) ] } ],
    typeMap := [("user", 0), ("post", 1), ("comment", 2)] }

/-- A registration exercising both `inverseFor` assertions: `Post.comments`
names a nonexistent inverse, and `Post.morecomments` leaves the inverse
unspecified while `Comment` has two relationships back to `Post`. -/
def assertEnv : Env :=
  { classes :=
      [ { typeKey := "post", className := "App.Post",
          props :=
            [ ("comments",
                { isRelationship := true, kind := Kind.hasMany, type := "comment",
                  inverseOpt := InverseOpt.named "nothere", parentType := "App.Post" }),
              ("morecomments",
                { isRelationship := true, kind := Kind.hasMany, type := "comment",
                  parentType := "App.Post" }) ] },
        { typeKey := "comment", className := "App.Comment",
          props :=
            [ ("post",
                { isRelationship := true, kind := Kind.belongsTo, type := "post",
                  parentType := "App.Comment" }),
              ("post2",
                { isRelationship := true, kind := Kind.belongsTo, type := "post",
                  parentType := "App.Comment" }) ] } ],
    typeMap := [("post", 0), ("comment", 1)] }

/-- A registration whose `Post.comments` relationship declares a target type
the store cannot resolve. -/
def missingTypeEnv : Env :=
  { classes :=
      [ { typeKey := "post", className := "App.Post",
          props :=
            [ ("comments",
                { isRelationship := true, kind := Kind.hasMany, type := "comment",
                  parentType := "App.Post" }) ] } ],
    typeMap := [("post", 0)] }

/-! ## Lemmas about the association-list primitives -/

section AssocLemmas

variable {κ α : Type} [DecidableEq κ]

@[simp] theorem lookupAssoc_nil (k : κ) : lookupAssoc ([] : List (κ × α)) k = none := rfl

theorem lookupAssoc_cons (p : κ × α) (rest : List (κ × α)) (k : κ) :
    lookupAssoc (p :: rest) k = if p.1 = k then some p.2 else lookupAssoc rest k := rfl

theorem lookupAssoc_setAssoc_self (l : List (κ × α)) (k : κ) (v : α) :
    lookupAssoc (setAssoc l k v) k = some v := by
  induction l with
  | nil => simp [setAssoc, lookupAssoc]
  | cons p rest ih =>
    by_cases h : p.1 = k
    · simp [setAssoc, h, lookupAssoc]
    · simp [setAssoc, h, lookupAssoc, ih]

theorem lookupAssoc_setAssoc_ne (l : List (κ × α)) (k k' : κ) (v : α) (h : k' ≠ k) :
    lookupAssoc (setAssoc l k v) k' = lookupAssoc l k' := by
  induction l with
  | nil => simp [setAssoc, lookupAssoc, Ne.symm h]
  | cons p rest ih =>
    by_cases hp : p.1 = k
    · subst hp
      simp [setAssoc, lookupAssoc, Ne.symm h]
    · simp only [setAssoc, if_neg hp, lookupAssoc]
      by_cases hp' : p.1 = k'
      · simp [hp']
      · simp [hp', ih]

theorem lookupAssoc_delAssoc_self (l : List (κ × α)) (k : κ) :
    lookupAssoc (delAssoc l k) k = none := by
  induction l with
  | nil => simp [delAssoc]
  | cons p rest ih =>
    by_cases h : p.1 = k
    · simp [delAssoc, h, ih]
    · simp [delAssoc, h, lookupAssoc, ih]

theorem lookupAssoc_delAssoc_ne (l : List (κ × α)) (k k' : κ) (h : k' ≠ k) :
    lookupAssoc (delAssoc l k) k' = lookupAssoc l k' := by
  induction l with
  | nil => simp [delAssoc]
  | cons p rest ih =>
    by_cases hp : p.1 = k
    · subst hp
      simp [delAssoc, lookupAssoc, Ne.symm h, ih]
    · simp only [delAssoc, if_neg hp, lookupAssoc]
      by_cases hp' : p.1 = k'
      · simp [hp']
      · simp [hp', ih]

theorem lookupAssoc_some_exists {l : List (κ × α)} {k : κ} {v : α}
    (h : lookupAssoc l k = some v) : ∃ p ∈ l, p.1 = k ∧ p.2 = v := by
  induction l with
  | nil => simp [lookupAssoc] at h
  | cons p rest ih =>
    by_cases hp : p.1 = k
    · refine ⟨p, by simp, hp, ?_⟩
      simp [lookupAssoc, hp] at h
      exact h
    · simp [lookupAssoc, hp] at h
      obtain ⟨q, hq, hqk, hqv⟩ := ih h
      exact ⟨q, by simp [hq], hqk, hqv⟩

theorem lookupAssoc_eq_none_of_not_mem {l : List (κ × α)} {k : κ}
    (h : ∀ p ∈ l, p.1 ≠ k) : lookupAssoc l k = none := by
  induction l with
  | nil => rfl
  | cons p rest ih =>
    have hp : p.1 ≠ k := h p (by simp)
    simp only [lookupAssoc, if_neg hp]
    exact ih fun q hq => h q (by simp [hq])

theorem setAssoc_of_lookup_none {l : List (κ × α)} {k : κ} (v : α)
    (h : lookupAssoc l k = none) : setAssoc l k v = l ++ [(k, v)] := by
  induction l with
  | nil => rfl
  | cons p rest ih =>
    by_cases hp : p.1 = k
    · simp [lookupAssoc, hp] at h
    · simp only [lookupAssoc, if_neg hp] at h
      simp [setAssoc, hp, ih h]

theorem mapGetD_setAssoc_self (m : List (κ × List α)) (k : κ) (v : List α) :
    mapGetD (setAssoc m k v) k = v := by
  simp [mapGetD, lookupAssoc_setAssoc_self]

theorem mapGetD_setAssoc_ne (m : List (κ × List α)) (k k' : κ) (v : List α) (h : k' ≠ k) :
    mapGetD (setAssoc m k v) k' = mapGetD m k' := by
  simp [mapGetD, lookupAssoc_setAssoc_ne _ _ _ _ h]

end AssocLemmas

/-! ## Structural lemmas about the property iteration -/

theorem dedupKeys_subset {l : List (String × PropMeta)} {p : String × PropMeta}
    (h : p ∈ dedupKeys l) : p ∈ l := by
  induction l with
  | nil => simp [dedupKeys] at h
  | cons q rest ih =>
    cases hq : rest.any (fun r => decide (r.1 = q.1)) with
    | true =>
      simp only [dedupKeys, hq, if_true] at h
      exact List.mem_cons_of_mem _ (ih h)
    | false =>
      simp only [dedupKeys, hq, if_false] at h
      rcases List.mem_cons.mp h with rfl | h'
      · exact List.mem_cons_self _ _
      · exact List.mem_cons_of_mem _ (ih h')

theorem dedupKeys_keysNodup (l : List (String × PropMeta)) : keysNodup (dedupKeys l) := by
  induction l with
  | nil => simp [dedupKeys, keysNodup]
  | cons q rest ih =>
    cases hq : rest.any (fun r => decide (r.1 = q.1)) with
    | true => simpa [dedupKeys, hq] using ih
    | false =>
      have hstep : dedupKeys (q :: rest) = q :: dedupKeys rest := by
        simp [dedupKeys, hq]
      rw [hstep, keysNodup, List.map_cons, List.nodup_cons]
      refine ⟨?_, ih⟩
      intro hmem
      rcases List.mem_map.mp hmem with ⟨r, hr, hr1⟩
      have hrest : r ∈ rest := dedupKeys_subset hr
      have : rest.any (fun r => decide (r.1 = q.1)) = true :=
        List.any_eq_true.mpr ⟨r, hrest, by simp [hr1]⟩
      rw [hq] at this
      exact Bool.false_ne_true this

theorem allProps_keysNodup (env : Env) :
    ∀ (fuel ci : Nat), keysNodup (allProps env fuel ci) := by
  intro fuel
  induction fuel with
  | zero => intro ci; simp [allProps, keysNodup]
  | succ fuel ih =>
    intro ci
    simp only [allProps]
    cases hget : env.classes.get? ci with
    | none => simp [keysNodup]
    | some c =>
      simp only []
      have hinh : keysNodup (match c.superclass with
          | some s => allProps env fuel s
          | none => []) := by
        cases c.superclass with
        | some s => exact ih s
        | none => simp [keysNodup]
      have hown : keysNodup (dedupKeys c.props) := dedupKeys_keysNodup c.props
      rw [keysNodup, List.map_append]
      refine List.Nodup.append ?_ hown ?_
      · exact ((List.filter_sublist _).map Prod.fst).nodup hinh
      · intro x hx hx'
        rcases List.mem_map.mp hx with ⟨p, hp, hp1⟩
        rcases List.mem_map.mp hx' with ⟨q', hq', hq1⟩
        have hpred := List.of_mem_filter hp
        have hfalse : ((dedupKeys c.props).any fun r => decide (r.1 = p.1)) = false := by
          simpa using hpred
        have htrue : ((dedupKeys c.props).any fun r => decide (r.1 = p.1)) = true :=
          List.any_eq_true.mpr ⟨q', hq', by simp [hq1, hp1]⟩
        rw [hfalse] at htrue
        exact Bool.false_ne_true htrue

theorem eachComputedProps_keysNodup (env : Env) (ci : Nat) :
    keysNodup (eachComputedProps env ci) :=
  allProps_keysNodup env (env.classes.length) ci

/-! ## Characterizations of the map-building folds -/

section FoldLemmas

variable {κ α β : Type}

theorem find?_eq_some_of_mem [DecidableEq κ] {ps : List (κ × α)} {p : κ × α}
    (hnd : keysNodup ps) (hp : p ∈ ps) :
    ps.find? (fun q => decide (q.1 = p.1)) = some p := by
  induction ps with
  | nil => simp at hp
  | cons q rest ih =>
    rw [keysNodup, List.map_cons, List.nodup_cons] at hnd
    rcases List.mem_cons.mp hp with rfl | hmem
    · simp [List.find?]
    · have hqne : q.1 ≠ p.1 := by
        intro hqp
        exact hnd.1 (hqp ▸ List.mem_map.mpr ⟨p, hmem, rfl⟩)
      rw [List.find?_cons_of_neg _ (by simp [hqne])]
      exact ih hnd.2 hmem

theorem lookupAssoc_append [DecidableEq κ] (l₁ l₂ : List (κ × α)) (k : κ) :
    lookupAssoc (l₁ ++ l₂) k =
      match lookupAssoc l₁ k with
      | some v => some v
      | none => lookupAssoc l₂ k := by
  induction l₁ with
  | nil => simp [lookupAssoc]
  | cons p rest ih =>
    by_cases hp : p.1 = k
    · simp [lookupAssoc, hp]
    · simp [lookupAssoc, hp, ih]

theorem keys_filterMap_subset (G : κ × α → Option β) {ps : List (κ × α)}
    {p : κ × β} (hp : p ∈ ps.filterMap (fun q => (G q).map (fun v => (q.1, v)))) :
    p.1 ∈ ps.map Prod.fst := by
  rcases List.mem_filterMap.mp hp with ⟨a, ha, hGa⟩
  cases hG : G a with
  | none => rw [hG] at hGa; simp at hGa
  | some v =>
    rw [hG] at hGa
    have h2 : some (a.1, v) = some p := hGa
    have hpa : (a.1, v) = p := Option.some.inj h2
    rw [← hpa]
    exact List.mem_map.mpr ⟨a, ha, rfl⟩

theorem foldl_setAssoc_eq_filterMap [DecidableEq κ] (G : κ × α → Option β)
    (f : List (κ × β) → κ × α → List (κ × β))
    (hstep : ∀ m q, f m q = match G q with | some v => setAssoc m q.1 v | none => m)
    (ps : List (κ × α)) :
    ∀ acc : List (κ × β), keysNodup ps → (∀ p ∈ ps, lookupAssoc acc p.1 = none) →
      ps.foldl f acc = acc ++ ps.filterMap (fun q => (G q).map (fun v => (q.1, v))) := by
  induction ps with
  | nil => intro acc _ _; simp
  | cons q ps ih =>
    intro acc hnd hacc
    rw [keysNodup, List.map_cons, List.nodup_cons] at hnd
    cases hG : G q with
    | none =>
      have hfq : f acc q = acc := by rw [hstep, hG]
      rw [List.foldl_cons, hfq,
        ih acc hnd.2 (fun p hp => hacc p (List.mem_cons_of_mem _ hp))]
      simp [List.filterMap_cons, hG]
    | some v =>
      have hfq : f acc q = setAssoc acc q.1 v := by rw [hstep, hG]
      have hfresh : lookupAssoc acc q.1 = none := hacc q (List.mem_cons_self _ _)
      have hacc' : ∀ p ∈ ps, lookupAssoc (acc ++ [(q.1, v)]) p.1 = none := by
        intro p hp
        rw [lookupAssoc_append, hacc p (List.mem_cons_of_mem _ hp)]
        have hne : q.1 ≠ p.1 := by
          intro hqp
          exact hnd.1 (hqp ▸ List.mem_map.mpr ⟨p, hp, rfl⟩)
        simp [lookupAssoc, hne]
      rw [List.foldl_cons, hfq, setAssoc_of_lookup_none v hfresh,
        ih (acc ++ [(q.1, v)]) hnd.2 hacc']
      simp [List.filterMap_cons, hG]

theorem lookupAssoc_filterMap [DecidableEq κ] (G : κ × α → Option β) {ps : List (κ × α)}
    (hnd : keysNodup ps) (k : κ) :
    lookupAssoc (ps.filterMap (fun q => (G q).map (fun v => (q.1, v)))) k
      = (ps.find? (fun q => decide (q.1 = k))).bind G := by
  induction ps with
  | nil => simp [lookupAssoc]
  | cons q ps ih =>
    rw [keysNodup, List.map_cons, List.nodup_cons] at hnd
    cases hG : G q with
    | some v =>
      have hfm : List.filterMap (fun r => Option.map (fun v => (r.1, v)) (G r)) (q :: ps)
          = (q.1, v) :: List.filterMap (fun r => Option.map (fun v => (r.1, v)) (G r)) ps := by
        simp [List.filterMap_cons, hG]
      rw [hfm, lookupAssoc_cons]
      by_cases hk : q.1 = k
      · rw [List.find?_cons_of_pos _ (by simp [hk])]
        simp [hk, hG]
      · rw [List.find?_cons_of_neg _ (by simp [hk])]
        simp only [hk, if_false]
        exact ih hnd.2
    | none =>
      have hfm : List.filterMap (fun r => Option.map (fun v => (r.1, v)) (G r)) (q :: ps)
          = List.filterMap (fun r => Option.map (fun v => (r.1, v)) (G r)) ps := by
        simp [List.filterMap_cons, hG]
      rw [hfm]
      by_cases hk : q.1 = k
      · rw [List.find?_cons_of_pos _ (by simp [hk])]
        have hgq : (some q).bind G = none := by
          show G q = none
          exact hG
        rw [hgq]
        apply lookupAssoc_eq_none_of_not_mem
        intro p hp
        have hpk : p.1 ∈ ps.map Prod.fst := keys_filterMap_subset G hp
        intro hpeq
        exact hnd.1 (hk ▸ hpeq ▸ hpk)
      · rw [List.find?_cons_of_neg _ (by simp [hk])]
        exact ih hnd.2

end FoldLemmas

/-! ## Characterizations of the relationship introspection properties -/

theorem relationshipsByName_eq (env : Env) (ci : Nat) :
    relationshipsByName env ci
      = (eachComputedProps env ci).filterMap
          (fun q => (rbnEntry env q).map (fun v => (q.1, v))) := by
  unfold relationshipsByName
  rw [foldl_setAssoc_eq_filterMap (rbnEntry env)
      (fun map p => if p.2.isRelationship then setAssoc map p.1 (mkRelDesc env p.1 p.2) else map)
      (fun m q => by
        by_cases h : q.2.isRelationship
        · simp [rbnEntry, h]
        · simp [rbnEntry, h])
      (eachComputedProps env ci) []
      (eachComputedProps_keysNodup env ci)
      (fun p _ => rfl)]
  rw [List.nil_append]

theorem relationshipsByName_lookup (env : Env) (ci : Nat) (n : String) :
    lookupAssoc (relationshipsByName env ci) n
      = ((eachComputedProps env ci).find? (fun q => decide (q.1 = n))).bind (rbnEntry env) := by
  rw [relationshipsByName_eq]
  exact lookupAssoc_filterMap (rbnEntry env) (eachComputedProps_keysNodup env ci) n

theorem relationshipsByName_lookup_of_mem (env : Env) (ci : Nat) {q : String × PropMeta}
    (hq : q ∈ eachComputedProps env ci) (hrel : q.2.isRelationship = true) :
    lookupAssoc (relationshipsByName env ci) q.1 = some (mkRelDesc env q.1 q.2) := by
  rw [relationshipsByName_lookup,
    find?_eq_some_of_mem (eachComputedProps_keysNodup env ci) hq]
  show rbnEntry env q = some (mkRelDesc env q.1 q.2)
  simp [rbnEntry, hrel]

theorem fields_eq (env : Env) (ci : Nat) :
    fields env ci
      = (eachComputedProps env ci).filterMap
          (fun q => (fieldsEntry q).map (fun v => (q.1, v))) := by
  unfold fields
  rw [foldl_setAssoc_eq_filterMap fieldsEntry
      (fun map p =>
        if p.2.isRelationship then setAssoc map p.1 (kindStr p.2.kind)
        else if p.2.isAttribute then setAssoc map p.1 "attribute"
        else map)
      (fun m q => by
        by_cases h : q.2.isRelationship
        · simp [fieldsEntry, h]
        · by_cases h' : q.2.isAttribute
          · simp [fieldsEntry, h, h']
          · simp [fieldsEntry, h, h'])
      (eachComputedProps env ci) []
      (eachComputedProps_keysNodup env ci)
      (fun p _ => rfl)]
  rw [List.nil_append]

theorem fields_lookup (env : Env) (ci : Nat) (n : String) :
    lookupAssoc (fields env ci) n
      = ((eachComputedProps env ci).find? (fun q => decide (q.1 = n))).bind fieldsEntry := by
  rw [fields_eq]
  exact lookupAssoc_filterMap fieldsEntry (eachComputedProps_keysNodup env ci) n

theorem mapGetD_relationships_foldl (env : Env) (ps : List (String × PropMeta)) :
    ∀ (acc : List (Option Nat × List (String × Kind))) (key : Option Nat),
      mapGetD
        (ps.foldl
          (fun map p =>
            if p.2.isRelationship then
              let k := typeForRelationshipMeta env p.2
              setAssoc map k (mapGetD map k ++ [(p.1, p.2.kind)])
            else map)
          acc) key
        = mapGetD acc key ++ ps.filterMap (relEntryFor env key) := by
  induction ps with
  | nil => intro acc key; simp
  | cons q ps ih =>
    intro acc key
    rw [List.foldl_cons]
    by_cases hrel : q.2.isRelationship
    · have hstep :
          (if q.2.isRelationship then
            let k := typeForRelationshipMeta env q.2
            setAssoc acc k (mapGetD acc k ++ [(q.1, q.2.kind)])
          else acc)
          = setAssoc acc (typeForRelationshipMeta env q.2)
              (mapGetD acc (typeForRelationshipMeta env q.2) ++ [(q.1, q.2.kind)]) := by
        simp [hrel]
      rw [hstep, ih]
      by_cases hkey : typeForRelationshipMeta env q.2 = key
      · rw [hkey, mapGetD_setAssoc_self]
        simp [List.filterMap_cons, relEntryFor, hrel, hkey, List.append_assoc]
      · rw [mapGetD_setAssoc_ne _ _ _ _ (fun h => hkey h.symm)]
        simp [List.filterMap_cons, relEntryFor, hrel, hkey]
    · have hstep :
          (if q.2.isRelationship then
            let k := typeForRelationshipMeta env q.2
            setAssoc acc k (mapGetD acc k ++ [(q.1, q.2.kind)])
          else acc) = acc := by
        simp [hrel]
      rw [hstep, ih]
      simp [List.filterMap_cons, relEntryFor, hrel]

theorem mapGetD_relationships (env : Env) (ci : Nat) (key : Option Nat) :
    mapGetD (relationships env ci) key
      = (eachComputedProps env ci).filterMap (relEntryFor env key) := by
  unfold relationships
  rw [mapGetD_relationships_foldl]
  simp [mapGetD, lookupAssoc]

theorem relationshipNames_foldl (ps : List (String × PropMeta)) :
    ∀ acc : RelNames,
      (ps.foldl
          (fun names p =>
            if p.2.isRelationship then
              match p.2.kind with
              | Kind.hasMany => { names with hasMany := names.hasMany ++ [p.1] }
              | Kind.belongsTo => { names with belongsTo := names.belongsTo ++ [p.1] }
            else names)
          acc).hasMany
        = acc.hasMany ++ ps.filterMap (fun q =>
            if q.2.isRelationship = true ∧ q.2.kind = Kind.hasMany then some q.1 else none)
      ∧ (ps.foldl
          (fun names p =>
            if p.2.isRelationship then
              match p.2.kind with
              | Kind.hasMany => { names with hasMany := names.hasMany ++ [p.1] }
              | Kind.belongsTo => { names with belongsTo := names.belongsTo ++ [p.1] }
            else names)
          acc).belongsTo
        = acc.belongsTo ++ ps.filterMap (fun q =>
            if q.2.isRelationship = true ∧ q.2.kind = Kind.belongsTo then some q.1 else none) := by
  induction ps with
  | nil => intro acc; simp
  | cons q ps ih =>
    intro acc
    rw [List.foldl_cons]
    by_cases hrel : q.2.isRelationship
    · cases hkind : q.2.kind with
      | hasMany =>
        have hstep :
            (if q.2.isRelationship then
              match Kind.hasMany with
              | Kind.hasMany => { acc with hasMany := acc.hasMany ++ [q.1] }
              | Kind.belongsTo => { acc with belongsTo := acc.belongsTo ++ [q.1] }
            else acc) = { acc with hasMany := acc.hasMany ++ [q.1] } := by
          simp [hrel]
        rw [hstep]
        rcases ih { acc with hasMany := acc.hasMany ++ [q.1] } with ⟨ihH, ihB⟩
        constructor
        · rw [ihH]
          simp [List.filterMap_cons, hrel, hkind, List.append_assoc]
        · rw [ihB]
          simp [List.filterMap_cons, hrel, hkind]
      | belongsTo =>
        have hstep :
            (if q.2.isRelationship then
              match Kind.belongsTo with
              | Kind.hasMany => { acc with hasMany := acc.hasMany ++ [q.1] }
              | Kind.belongsTo => { acc with belongsTo := acc.belongsTo ++ [q.1] }
            else acc) = { acc with belongsTo := acc.belongsTo ++ [q.1] } := by
          simp [hrel]
        rw [hstep]
        rcases ih { acc with belongsTo := acc.belongsTo ++ [q.1] } with ⟨ihH, ihB⟩
        constructor
        · rw [ihH]
          simp [List.filterMap_cons, hrel, hkind]
        · rw [ihB]
          simp [List.filterMap_cons, hrel, hkind, List.append_assoc]
    · have hstep :
          (if q.2.isRelationship then
            match q.2.kind with
            | Kind.hasMany => { acc with hasMany := acc.hasMany ++ [q.1] }
            | Kind.belongsTo => { acc with belongsTo := acc.belongsTo ++ [q.1] }
          else acc) = acc := by
        simp [hrel]
      rw [hstep]
      rcases ih acc with ⟨ihH, ihB⟩
      constructor
      · rw [ihH]
        simp [List.filterMap_cons, hrel]
      · rw [ihB]
        simp [List.filterMap_cons, hrel]

theorem relationshipNames_hasMany (env : Env) (ci : Nat) :
    (relationshipNames env ci).hasMany
      = (eachComputedProps env ci).filterMap (fun q =>
          if q.2.isRelationship = true ∧ q.2.kind = Kind.hasMany then some q.1 else none) := by
  unfold relationshipNames
  rw [(relationshipNames_foldl (eachComputedProps env ci) { hasMany := [], belongsTo := [] }).1]
  rw [List.nil_append]

theorem relationshipNames_belongsTo (env : Env) (ci : Nat) :
    (relationshipNames env ci).belongsTo
      = (eachComputedProps env ci).filterMap (fun q =>
          if q.2.isRelationship = true ∧ q.2.kind = Kind.belongsTo then some q.1 else none) := by
  unfold relationshipNames
  rw [(relationshipNames_foldl (eachComputedProps env ci) { hasMany := [], belongsTo := [] }).2]
  rw [List.nil_append]

theorem findPossibleInverses_mem (env : Env) :
    ∀ (fuel ti t : Nat) (p : String × Kind),
      p ∈ findPossibleInverses env fuel ti t →
      ∃ a, a ∈ superChain env fuel ti ∧ p ∈ mapGetD (relationships env t) (some a) := by
  intro fuel
  induction fuel with
  | zero => intro ti t p hp; simp [findPossibleInverses] at hp
  | succ fuel ih =>
    intro ti t p hp
    simp only [findPossibleInverses] at hp
    rcases List.mem_append.mp hp with h | h
    · exact ⟨ti, by simp [superChain], h⟩
    · cases hsc : (env.classes.get? ti).bind (fun c => c.superclass) with
      | some s =>
        rw [hsc] at h
        rcases ih s t p h with ⟨a, ha, hmem⟩
        refine ⟨a, ?_, hmem⟩
        have hchain : superChain env (fuel + 1) ti = ti :: superChain env fuel s := by
          simp only [superChain, hsc]
        rw [hchain]
        exact List.mem_cons_of_mem _ ha
      | none =>
        rw [hsc] at h
        simp at h

/-- Every element of `findPossibleInverses` is a relationship declared on the
related type, recorded in its `relationshipsByName`, whose target is the
declaring class or one of its superclasses. -/
theorem possibleInverse_lookup (env : Env) (ci t : Nat) {p : String × Kind}
    (hp : p ∈ findPossibleInverses env env.classes.length ci t) :
    ∃ r : RelDesc, lookupAssoc (relationshipsByName env t) p.1 = some r ∧ r.kind = p.2 ∧
      ∃ a, a ∈ superChain env env.classes.length ci ∧ r.type = some a := by
  rcases findPossibleInverses_mem env env.classes.length ci t p hp with ⟨a, ha, hmem⟩
  rw [mapGetD_relationships] at hmem
  rcases List.mem_filterMap.mp hmem with ⟨q, hq, hEq⟩
  unfold relEntryFor at hEq
  by_cases hc : q.2.isRelationship = true ∧ typeForRelationshipMeta env q.2 = some a
  · rw [if_pos hc] at hEq
    have hp' : (q.1, q.2.kind) = p := Option.some.inj hEq
    have hlk := relationshipsByName_lookup_of_mem env t hq hc.1
    subst hp'
    exact ⟨mkRelDesc env q.1 q.2, hlk, rfl, a, ha, hc.2⟩
  · rw [if_neg hc] at hEq
    simp at hEq

/-! ## Error propagation through relatedTypes -/

theorem except_bind_error {ε α β : Type} (e : ε) (f : α → Except ε β) :
    (Except.error e >>= f) = (Except.error e : Except ε β) := rfl

theorem except_bind_ok {ε α β : Type} (a : α) (f : α → Except ε β) :
    (Except.ok a >>= f) = f a := rfl

theorem relatedTypes_foldl_error (env : Env) (ps : List (String × PropMeta)) :
    ∀ acc : List Nat,
      (∃ p ∈ ps, p.2.isRelationship = true ∧ typeForRelationshipMeta env p.2 = none) →
      ∃ p ∈ ps, p.2.isRelationship = true ∧ typeForRelationshipMeta env p.2 = none ∧
        ps.foldlM
          (fun types p =>
            if p.2.isRelationship then
              match typeForRelationshipMeta env p.2 with
              | none => Except.error (relatedTypesMsg p.2.type p.2.parentType)
              | some t =>
                if types.contains t then Except.ok types else Except.ok (types ++ [t])
            else Except.ok types)
          acc = Except.error (relatedTypesMsg p.2.type p.2.parentType) := by
  induction ps with
  | nil => intro acc h; simp at h
  | cons q ps ih =>
    intro acc hex
    by_cases hq : q.2.isRelationship = true ∧ typeForRelationshipMeta env q.2 = none
    · refine ⟨q, List.mem_cons_self _ _, hq.1, hq.2, ?_⟩
      have hf :
          (if q.2.isRelationship then
            match typeForRelationshipMeta env q.2 with
            | none => Except.error (relatedTypesMsg q.2.type q.2.parentType)
            | some t =>
              if acc.contains t then Except.ok acc else Except.ok (acc ++ [t])
          else Except.ok acc)
          = (Except.error (relatedTypesMsg q.2.type q.2.parentType) : Except String (List Nat)) := by
        rw [if_pos hq.1, hq.2]
      rw [List.foldlM_cons, hf, except_bind_error]
    · have hex' : ∃ p ∈ ps, p.2.isRelationship = true ∧ typeForRelationshipMeta env p.2 = none := by
        rcases hex with ⟨p, hp, hprel, hptm⟩
        rcases List.mem_cons.mp hp with rfl | hp'
        · exact absurd ⟨hprel, hptm⟩ hq
        · exact ⟨p, hp', hprel, hptm⟩
      have hok : ∃ acc',
          (if q.2.isRelationship then
            match typeForRelationshipMeta env q.2 with
            | none => Except.error (relatedTypesMsg q.2.type q.2.parentType)
            | some t =>
              if acc.contains t then Except.ok acc else Except.ok (acc ++ [t])
          else Except.ok acc)
          = (Except.ok acc' : Except String (List Nat)) := by
        by_cases hrel : q.2.isRelationship
        · cases htm : typeForRelationshipMeta env q.2 with
          | none => exact absurd ⟨by simp [hrel], htm⟩ hq
          | some t =>
            by_cases hc : t ∈ acc
            · exact ⟨acc, by simp [hrel, hc]⟩
            · exact ⟨acc ++ [t], by simp [hrel, hc]⟩
        · exact ⟨acc, by simp [hrel]⟩
      rcases hok with ⟨acc', hacc'⟩
      rcases ih acc' hex' with ⟨p, hp, hprel, hptm, hfold⟩
      refine ⟨p, List.mem_cons_of_mem _ hp, hprel, hptm, ?_⟩
      rw [List.foldlM_cons, hacc', except_bind_ok, hfold]

/-! ## The claims -/

/-- C9: for every model class and every name that is not a defined
relationship of the class, `typeForRelationship` returns no type rather than
aborting, and `inverseFor` consequently returns null. -/
theorem C9_undefined_name_typeForRelationship (env : Env) (ci : Nat) (name : String)
    (h : lookupAssoc (relationshipsByName env ci) name = none) :
    typeForRelationship env ci name = none ∧ inverseFor env ci name = Except.ok none := by
  have ht : typeForRelationship env ci name = none := by
    unfold typeForRelationship
    rw [h]
  refine ⟨ht, ?_⟩
  unfold inverseFor
  rw [ht]

/-- Witness for C9 on the test registration: `nope` is not a relationship of
`Post`. -/
theorem C9_undefined_name_typeForRelationship_witness :
    typeForRelationship blogEnv 1 "nope" = none ∧
      inverseFor blogEnv 1 "nope" = Except.ok none :=
  C9_undefined_name_typeForRelationship blogEnv 1 "nope" (by decide)

/-- C2: `inverseFor` aborts via an assertion with the descriptive
no-inverse-found message when the explicitly named inverse does not exist on
the related type, and with a descriptive message when no inverse is named
and more than one candidate inverse relationship is found. -/
theorem C2_inverseFor_assertions (env : Env) (ci : Nat) (name : String) :
    (∀ (t : Nat) (m : PropMeta) (iname : String),
      typeForRelationship env ci name = some t →
      metaForProperty env ci name = some m →
      m.inverseOpt = InverseOpt.named iname →
      lookupAssoc (relationshipsByName env t) iname = none →
      inverseFor env ci name = Except.error (noInverseMsg iname (typeKeyOf env t)))
    ∧ (∀ (t : Nat) (m : PropMeta) (p q : String × Kind) (rest : List (String × Kind)),
      typeForRelationship env ci name = some t →
      metaForProperty env ci name = some m →
      m.inverseOpt = InverseOpt.unspecified →
      findPossibleInverses env env.classes.length ci t = p :: q :: rest →
      inverseFor env ci name
        = Except.error (multipleInversesMsg name (classNameOf env ci) (classNameOf env t))) := by
  constructor
  · intro t m iname ht hm hio hlk
    unfold inverseFor
    simp [ht, hm, hio, hlk]
  · intro t m p q rest ht hm hio hfpi
    unfold inverseFor
    simp [ht, hm, hio, hfpi]

/-- Witness for C2 on the asserting registration: the named inverse
`nothere` is missing, and `morecomments` has two possible inverses. -/
theorem C2_inverseFor_assertions_witness :
    inverseFor assertEnv 0 "comments"
        = Except.error (noInverseMsg "nothere" (typeKeyOf assertEnv 1))
      ∧ inverseFor assertEnv 0 "morecomments"
        = Except.error
            (multipleInversesMsg "morecomments" (classNameOf assertEnv 0) (classNameOf assertEnv 1)) :=
  ⟨(C2_inverseFor_assertions assertEnv 0 "comments").1 1
      { isRelationship := true, kind := Kind.hasMany, type := "comment",
        inverseOpt := InverseOpt.named "nothere", parentType := "App.Post" }
      "nothere" (by decide) (by decide) (by decide) (by decide),
    (C2_inverseFor_assertions assertEnv 0 "morecomments").2 1
      { isRelationship := true, kind := Kind.hasMany, type := "comment",
        parentType := "App.Post" }
      ("post", Kind.belongsTo) ("post2", Kind.belongsTo) [] (by decide) (by decide) (by decide)
      (by decide)⟩

/-- C3: when any relationship's declared target type cannot be resolved,
computing `relatedTypes` aborts via an assertion whose message names the
missing type, rather than silently omitting the relationship. -/
theorem C3_relatedTypes_assert (env : Env) (ci : Nat)
    (hex : ∃ p ∈ eachComputedProps env ci,
      p.2.isRelationship = true ∧ typeForRelationshipMeta env p.2 = none) :
    ∃ p ∈ eachComputedProps env ci,
      p.2.isRelationship = true ∧ typeForRelationshipMeta env p.2 = none ∧
      relatedTypes env ci = Except.error (relatedTypesMsg p.2.type p.2.parentType) := by
  unfold relatedTypes
  exact relatedTypes_foldl_error env (eachComputedProps env ci) [] hex

/-- Witness for C3 on the registration whose comment type is unregistered. -/
theorem C3_relatedTypes_assert_witness :
    ∃ p ∈ eachComputedProps missingTypeEnv 0,
      p.2.isRelationship = true ∧ typeForRelationshipMeta missingTypeEnv p.2 = none ∧
      relatedTypes missingTypeEnv 0
        = Except.error (relatedTypesMsg p.2.type p.2.parentType) :=
  C3_relatedTypes_assert missingTypeEnv 0
    ⟨("comments",
        { isRelationship := true, kind := Kind.hasMany, type := "comment",
          parentType := "App.Post" }),
      by decide, by decide, by decide⟩

theorem rbn_lookup_some_iff (env : Env) (ci : Nat) (n : String) (r : RelDesc) :
    lookupAssoc (relationshipsByName env ci) n = some r
      ↔ ∃ q ∈ eachComputedProps env ci,
          q.1 = n ∧ q.2.isRelationship = true ∧ r = mkRelDesc env q.1 q.2 := by
  rw [relationshipsByName_lookup]
  constructor
  · intro h
    cases hfind : (eachComputedProps env ci).find? (fun q => decide (q.1 = n)) with
    | none => rw [hfind] at h; simp at h
    | some q =>
      rw [hfind] at h
      have hq : rbnEntry env q = some r := h
      have hmem : q ∈ eachComputedProps env ci := List.mem_of_find?_eq_some hfind
      have hpred := List.find?_some hfind
      have hq1 : q.1 = n := by simpa using hpred
      by_cases hrel : q.2.isRelationship
      · rw [rbnEntry, if_pos hrel] at hq
        exact ⟨q, hmem, hq1, hrel, (Option.some.inj hq).symm⟩
      · rw [rbnEntry, if_neg hrel] at hq
        simp at hq
  · rintro ⟨q, hmem, hq1, hrel, hr⟩
    have hfind : (eachComputedProps env ci).find? (fun p => decide (p.1 = q.1)) = some q :=
      find?_eq_some_of_mem (eachComputedProps_keysNodup env ci) hmem
    rw [← hq1, hfind]
    show rbnEntry env q = some r
    rw [rbnEntry, if_pos hrel, hr]

theorem hasMany_names_iff (env : Env) (ci : Nat) (n : String) :
    n ∈ (relationshipNames env ci).hasMany
      ↔ ∃ q ∈ eachComputedProps env ci,
          q.1 = n ∧ q.2.isRelationship = true ∧ q.2.kind = Kind.hasMany := by
  rw [relationshipNames_hasMany, List.mem_filterMap]
  constructor
  · rintro ⟨q, hq, hGq⟩
    by_cases hc : q.2.isRelationship = true ∧ q.2.kind = Kind.hasMany
    · rw [if_pos hc] at hGq
      exact ⟨q, hq, Option.some.inj hGq, hc.1, hc.2⟩
    · rw [if_neg hc] at hGq
      simp at hGq
  · rintro ⟨q, hq, hq1, hrel, hkind⟩
    exact ⟨q, hq, by rw [if_pos ⟨hrel, hkind⟩, hq1]⟩

theorem belongsTo_names_iff (env : Env) (ci : Nat) (n : String) :
    n ∈ (relationshipNames env ci).belongsTo
      ↔ ∃ q ∈ eachComputedProps env ci,
          q.1 = n ∧ q.2.isRelationship = true ∧ q.2.kind = Kind.belongsTo := by
  rw [relationshipNames_belongsTo, List.mem_filterMap]
  constructor
  · rintro ⟨q, hq, hGq⟩
    by_cases hc : q.2.isRelationship = true ∧ q.2.kind = Kind.belongsTo
    · rw [if_pos hc] at hGq
      exact ⟨q, hq, Option.some.inj hGq, hc.1, hc.2⟩
    · rw [if_neg hc] at hGq
      simp at hGq
  · rintro ⟨q, hq, hq1, hrel, hkind⟩
    exact ⟨q, hq, by rw [if_pos ⟨hrel, hkind⟩, hq1]⟩

/-- C10: the relationship-introspection properties agree: the names in
`relationshipNames` (hasMany and belongsTo lists together) are exactly the
keys of `relationshipsByName`; every such name is mapped by `fields` to the
kind string recorded in its `relationshipsByName` descriptor; and every name
in the hasMany (resp. belongsTo) list has kind hasMany (resp. belongsTo). -/
theorem C10_introspection_agreement (env : Env) (ci : Nat) :
    (∀ n : String,
      (n ∈ (relationshipNames env ci).hasMany ∨ n ∈ (relationshipNames env ci).belongsTo)
        ↔ ∃ r : RelDesc, lookupAssoc (relationshipsByName env ci) n = some r)
    ∧ (∀ (n : String) (r : RelDesc),
        lookupAssoc (relationshipsByName env ci) n = some r →
        lookupAssoc (fields env ci) n = some (kindStr r.kind))
    ∧ (∀ n ∈ (relationshipNames env ci).hasMany,
        ∃ r : RelDesc,
          lookupAssoc (relationshipsByName env ci) n = some r ∧ r.kind = Kind.hasMany)
    ∧ (∀ n ∈ (relationshipNames env ci).belongsTo,
        ∃ r : RelDesc,
          lookupAssoc (relationshipsByName env ci) n = some r ∧ r.kind = Kind.belongsTo) := by
  refine ⟨?_, ?_, ?_, ?_⟩
  · intro n
    constructor
    · rintro (h | h)
      · rcases (hasMany_names_iff env ci n).mp h with ⟨q, hq, hq1, hrel, hkind⟩
        exact ⟨mkRelDesc env q.1 q.2,
          (rbn_lookup_some_iff env ci n _).mpr ⟨q, hq, hq1, hrel, rfl⟩⟩
      · rcases (belongsTo_names_iff env ci n).mp h with ⟨q, hq, hq1, hrel, hkind⟩
        exact ⟨mkRelDesc env q.1 q.2,
          (rbn_lookup_some_iff env ci n _).mpr ⟨q, hq, hq1, hrel, rfl⟩⟩
    · rintro ⟨r, hr⟩
      rcases (rbn_lookup_some_iff env ci n r).mp hr with ⟨q, hq, hq1, hrel, hrdef⟩
      cases hkind : q.2.kind with
      | hasMany =>
        exact Or.inl ((hasMany_names_iff env ci n).mpr ⟨q, hq, hq1, hrel, hkind⟩)
      | belongsTo =>
        exact Or.inr ((belongsTo_names_iff env ci n).mpr ⟨q, hq, hq1, hrel, hkind⟩)
  · intro n r hr
    rcases (rbn_lookup_some_iff env ci n r).mp hr with ⟨q, hq, hq1, hrel, hrdef⟩
    rw [fields_lookup, ← hq1,
      find?_eq_some_of_mem (eachComputedProps_keysNodup env ci) hq]
    show fieldsEntry q = some (kindStr r.kind)
    rw [hrdef]
    simp [fieldsEntry, hrel, mkRelDesc]
  · intro n h
    rcases (hasMany_names_iff env ci n).mp h with ⟨q, hq, hq1, hrel, hkind⟩
    exact ⟨mkRelDesc env q.1 q.2,
      (rbn_lookup_some_iff env ci n _).mpr ⟨q, hq, hq1, hrel, rfl⟩, hkind⟩
  · intro n h
    rcases (belongsTo_names_iff env ci n).mp h with ⟨q, hq, hq1, hrel, hkind⟩
    exact ⟨mkRelDesc env q.1 q.2,
      (rbn_lookup_some_iff env ci n _).mpr ⟨q, hq, hq1, hrel, rfl⟩, hkind⟩

/-- Witness for C10 on the test registration's `Post` class. -/
theorem C10_introspection_agreement_witness :
    lookupAssoc (fields blogEnv 1) "comments"
        = some (kindStr (RelDesc.mk "comments" Kind.hasMany (some 2)).kind)
      ∧ ∃ r : RelDesc,
          lookupAssoc (relationshipsByName blogEnv 1) "comments" = some r
            ∧ r.kind = Kind.hasMany :=
  ⟨(C10_introspection_agreement blogEnv 1).2.1 "comments"
      (RelDesc.mk "comments" Kind.hasMany (some 2)) (by decide),
    (C10_introspection_agreement blogEnv 1).2.2.1 "comments" (by decide)⟩

/-- C1 (amended): `inverseFor(name)` returns null when the relationship's
target type does not resolve, when `options.inverse` is null, or when no
inverse is named and no candidate inverse relationship exists; when it
returns a descriptor, the descriptor's type is the related model type and
its name and kind identify a relationship defined on that related type, and
in the searched (no explicitly named inverse) case that relationship points
back to the original model, targeting the declaring class or one of its
superclasses. (The original claim's requirement that the inverse point back
to the original model does not hold when `options.inverse` explicitly names
a relationship: the code returns the named relationship without checking its
target.) -/
theorem C1_inverseFor_amended (env : Env) (ci : Nat) (name : String) :
    (typeForRelationship env ci name = none → inverseFor env ci name = Except.ok none)
    ∧ (∀ m : PropMeta, metaForProperty env ci name = some m →
        m.inverseOpt = InverseOpt.null → inverseFor env ci name = Except.ok none)
    ∧ (∀ (t : Nat) (m : PropMeta),
        typeForRelationship env ci name = some t →
        metaForProperty env ci name = some m →
        m.inverseOpt = InverseOpt.unspecified →
        findPossibleInverses env env.classes.length ci t = [] →
        inverseFor env ci name = Except.ok none)
    ∧ (∀ desc : InverseDesc, inverseFor env ci name = Except.ok (some desc) →
        typeForRelationship env ci name = some desc.type
        ∧ ∃ r : RelDesc,
            lookupAssoc (relationshipsByName env desc.type) desc.name = some r
            ∧ r.kind = desc.kind
            ∧ (∀ m : PropMeta, metaForProperty env ci name = some m →
                m.inverseOpt = InverseOpt.unspecified →
                ∃ a, a ∈ superChain env env.classes.length ci ∧ r.type = some a)) := by
  refine ⟨?_, ?_, ?_, ?_⟩
  · intro h
    unfold inverseFor
    rw [h]
  · intro m hm hnull
    unfold inverseFor
    cases ht : typeForRelationship env ci name with
    | none => rfl
    | some t => simp [hm, hnull]
  · intro t m ht hm hio hfpi
    unfold inverseFor
    simp [ht, hm, hio, hfpi]
  · intro desc h
    cases ht : typeForRelationship env ci name with
    | none =>
      have hcomp : inverseFor env ci name = Except.ok none := by
        unfold inverseFor
        rw [ht]
      rw [hcomp] at h
      simp at h
    | some t =>
      cases hm : metaForProperty env ci name with
      | none =>
        have hcomp : inverseFor env ci name
            = Except.error "metaForProperty: property not found" := by
          unfold inverseFor
          simp [ht, hm]
        rw [hcomp] at h
        simp at h
      | some m =>
        cases hio : m.inverseOpt with
        | null =>
          have hcomp : inverseFor env ci name = Except.ok none := by
            unfold inverseFor
            simp [ht, hm, hio]
          rw [hcomp] at h
          simp at h
        | named iname =>
          cases hlk : lookupAssoc (relationshipsByName env t) iname with
          | none =>
            have hcomp : inverseFor env ci name
                = Except.error (noInverseMsg iname (typeKeyOf env t)) := by
              unfold inverseFor
              simp [ht, hm, hio, hlk]
            rw [hcomp] at h
            simp at h
          | some inv =>
            have hcomp : inverseFor env ci name
                = Except.ok (some (InverseDesc.mk t iname inv.kind)) := by
              unfold inverseFor
              simp [ht, hm, hio, hlk]
            rw [hcomp] at h
            have hdesc : InverseDesc.mk t iname inv.kind = desc :=
              Option.some.inj (Except.ok.inj h)
            subst hdesc
            refine ⟨rfl, inv, hlk, rfl, ?_⟩
            intro m' hm' hio'
            have hmm : m = m' := Option.some.inj hm'
            subst hmm
            rw [hio] at hio'
            cases hio'
        | unspecified =>
          cases hfpi : findPossibleInverses env env.classes.length ci t with
          | nil =>
            have hcomp : inverseFor env ci name = Except.ok none := by
              unfold inverseFor
              simp [ht, hm, hio, hfpi]
            rw [hcomp] at h
            simp at h
          | cons p rest =>
            cases rest with
            | nil =>
              have hcomp : inverseFor env ci name
                  = Except.ok (some (InverseDesc.mk t p.1 p.2)) := by
                unfold inverseFor
                simp [ht, hm, hio, hfpi]
              rw [hcomp] at h
              have hdesc : InverseDesc.mk t p.1 p.2 = desc :=
                Option.some.inj (Except.ok.inj h)
              subst hdesc
              have hp : p ∈ findPossibleInverses env env.classes.length ci t := by
                rw [hfpi]
                exact List.mem_cons_self _ _
              rcases possibleInverse_lookup env ci t hp with ⟨r, hlk, hkind, a, ha, htype⟩
              exact ⟨rfl, r, hlk, hkind, fun m' hm' hio' => ⟨a, ha, htype⟩⟩
            | cons q rest' =>
              have hcomp : inverseFor env ci name
                  = Except.error
                      (multipleInversesMsg name (classNameOf env ci) (classNameOf env t)) := by
                unfold inverseFor
                simp [ht, hm, hio, hfpi]
              rw [hcomp] at h
              simp at h

/-- Witness for C1 (amended) on the test registration: an undefined name
yields null, and `Post.comments` resolves by search to the `post`
relationship on `Comment`, which targets `Post` itself. -/
theorem C1_inverseFor_amended_witness :
    (inverseFor blogEnv 1 "nope" = Except.ok none)
    ∧ (typeForRelationship blogEnv 1 "comments" = some 2
        ∧ ∃ r : RelDesc,
            lookupAssoc (relationshipsByName blogEnv 2) "post" = some r
            ∧ r.kind = Kind.belongsTo
            ∧ (∀ m : PropMeta, metaForProperty blogEnv 1 "comments" = some m →
                m.inverseOpt = InverseOpt.unspecified →
                ∃ a, a ∈ superChain blogEnv blogEnv.classes.length 1 ∧ r.type = some a)) :=
  ⟨(C1_inverseFor_amended blogEnv 1 "nope").1 (by decide),
    (C1_inverseFor_amended blogEnv 1 "comments").2.2.2
      (InverseDesc.mk 2 "post" Kind.belongsTo) (by rfl)⟩

/-- C1 counterexample: on `badInverseEnv`, `inverseFor` for `Post.comments`
returns the explicitly named inverse `author` on `Comment`, yet `author`
targets `User` (class 0), which is neither `Post` (class 1) nor a superclass
of it: the returned relationship does not point back to the original model. -/
theorem C1_inverseFor_counterexample :
    inverseFor badInverseEnv 1 "comments"
        = Except.ok (some (InverseDesc.mk 2 "author" Kind.belongsTo))
      ∧ lookupAssoc (relationshipsByName badInverseEnv 2) "author"
        = some (RelDesc.mk "author" Kind.belongsTo (some 0))
      ∧ superChain badInverseEnv badInverseEnv.classes.length 1 = [1]
      ∧ (0 : Nat) ∉ superChain badInverseEnv badInverseEnv.classes.length 1 :=
  ⟨by rfl, by decide, by decide, by decide⟩

/-! ## Serializer write lemmas -/

theorem foldl_id {α β : Type} (f : β → α → β) (l : List α)
    (hid : ∀ h a, a ∈ l → f h a = h) : ∀ h : β, l.foldl f h = h := by
  induction l with
  | nil => intro h; rfl
  | cons a l ih =>
    intro h
    rw [List.foldl_cons, hid h a (List.mem_cons_self _ _)]
    exact ih (fun h' a' ha' => hid h' a' (List.mem_cons_of_mem _ ha')) h

theorem foldl_write_skip {α : Type} (f : JObj → α → JObj) (wkey : α → String)
    (l : List α) (k : String)
    (hf : ∀ (j : JObj) (a : α), a ∈ l → ∃ v, f j a = setAssoc j (wkey a) v)
    (hk : ∀ a ∈ l, wkey a ≠ k) :
    ∀ j : JObj, lookupAssoc (l.foldl f j) k = lookupAssoc j k := by
  induction l with
  | nil => intro j; rfl
  | cons a l ih =>
    intro j
    rw [List.foldl_cons,
      ih (fun j' a' ha' => hf j' a' (List.mem_cons_of_mem _ ha'))
        (fun a' ha' => hk a' (List.mem_cons_of_mem _ ha')) (f j a)]
    rcases hf j a (List.mem_cons_self _ _) with ⟨v, hv⟩
    rw [hv, lookupAssoc_setAssoc_ne _ _ _ _ (Ne.symm (hk a (List.mem_cons_self _ _)))]

theorem foldl_write_hit {α : Type} (f : JObj → α → JObj) (wkey : α → String)
    (wval : α → JVal) (l : List α) (k : String) (v : JVal)
    (hf : ∀ (j : JObj) (a : α), a ∈ l → f j a = setAssoc j (wkey a) (wval a))
    (hex : ∃ a ∈ l, wkey a = k)
    (hall : ∀ a ∈ l, wkey a = k → wval a = v) :
    ∀ j : JObj, lookupAssoc (l.foldl f j) k = some v := by
  induction l with
  | nil =>
    rcases hex with ⟨a, ha, _⟩
    simp at ha
  | cons a l ih =>
    intro j
    rw [List.foldl_cons]
    by_cases hex' : ∃ b ∈ l, wkey b = k
    · exact ih (fun j' a' ha' => hf j' a' (List.mem_cons_of_mem _ ha')) hex'
        (fun a' ha' => hall a' (List.mem_cons_of_mem _ ha')) (f j a)
    · have hak : wkey a = k := by
        rcases hex with ⟨b, hb, hbk⟩
        rcases List.mem_cons.mp hb with rfl | hbl
        · exact hbk
        · exact absurd ⟨b, hbl, hbk⟩ hex'
      have hskip : lookupAssoc (l.foldl f (f j a)) k = lookupAssoc (f j a) k :=
        foldl_write_skip f wkey l k
          (fun j' a' ha' => ⟨wval a', hf j' a' (List.mem_cons_of_mem _ ha')⟩)
          (fun a' ha' heq => hex' ⟨a', ha', heq⟩) (f j a)
      rw [hskip, hf j a (List.mem_cons_self _ _), hak, lookupAssoc_setAssoc_self,
        hall a (List.mem_cons_self _ _) hak]

theorem serializeAttribute_is_write (cfg : SerializerConfig) (rec : RecordData)
    (j : JObj) (n : String) :
    serializeAttribute cfg rec j n
      = setAssoc j (attrPayloadKey cfg n) ((lookupAssoc rec.attrs n).getD JVal.jnull) := rfl

theorem serializeBelongsTo_nonpoly (cfg : SerializerConfig) (rec : RecordData)
    (j : JObj) (rel : RelInfo) (hpoly : rel.polymorphic = false) :
    serializeBelongsTo cfg rec j rel
      = setAssoc j (cfg.keyForRelationship rel.key Kind.belongsTo) (btValue rec rel.key) := by
  unfold serializeBelongsTo btValue
  rw [hpoly]
  simp

theorem serializeHasMany_is_write (cfg : SerializerConfig) (rec : RecordData)
    (j : JObj) {e : HasManyEntry} (he : e ∈ rec.hasManys) :
    serializeHasMany cfg rec j { key := e.name, polymorphic := false }
      = setAssoc j (cfg.keyForRelationship e.name Kind.hasMany) (hmValue rec e.name) := by
  have hfound : ∃ x, rec.hasManys.find? (fun r => decide (r.name = e.name)) = some x := by
    cases hfind : rec.hasManys.find? (fun r => decide (r.name = e.name)) with
    | some x => exact ⟨x, rfl⟩
    | none =>
      have := List.find?_eq_none.mp hfind e he
      simp at this
  rcases hfound with ⟨x, hx⟩
  have hw : hmLookup rec e.name = some x.targets := by
    unfold hmLookup
    rw [hx]
    rfl
  unfold serializeHasMany hmValue
  rw [hw]
  rfl

/-! ## Normalization lemmas -/

theorem normalizeUsingDeclaredMapping_attrs_nil (cfg : SerializerConfig)
    (ha : cfg.attrs = []) (hash : JObj) :
    normalizeUsingDeclaredMapping cfg hash = hash := by
  unfold normalizeUsingDeclaredMapping
  rw [ha]
  rfl

theorem normalizeAttributes_id (cfg : SerializerConfig) (shape : ModelShape)
    (hkfa : ∀ s, cfg.keyForAttribute s = s) (hash : JObj) :
    normalizeAttributes cfg shape hash = hash := by
  unfold normalizeAttributes
  exact foldl_id _ _ (fun h n _ => by simp [hkfa n]) hash

theorem normalizeRelationships_id (cfg : SerializerConfig) (shape : ModelShape)
    (hkfr : ∀ s k, cfg.keyForRelationship s k = s) (hash : JObj) :
    normalizeRelationships cfg shape hash = hash := by
  unfold normalizeRelationships
  exact foldl_id _ _ (fun h q _ => by simp [hkfr q.1 q.2]) hash

theorem normalizeId_lookup_id (cfg : SerializerConfig) (hash : JObj) {v : JVal}
    (hv : lookupAssoc hash cfg.primaryKey = some v) :
    lookupAssoc (normalizeId cfg hash) "id" = some (coerceId v) := by
  unfold normalizeId
  rw [hv]
  by_cases hpk : cfg.primaryKey = "id"
  · simp [hpk, lookupAssoc_setAssoc_self]
  · simp [hpk, lookupAssoc_delAssoc_ne _ _ _ (Ne.symm hpk), lookupAssoc_setAssoc_self]

theorem normalizeId_lookup_ne (cfg : SerializerConfig) (hash : JObj) (k : String)
    (hk1 : k ≠ "id") (hk2 : k ≠ cfg.primaryKey) :
    lookupAssoc (normalizeId cfg hash) k = lookupAssoc hash k := by
  unfold normalizeId
  cases hv : lookupAssoc hash cfg.primaryKey with
  | none => rfl
  | some v =>
    by_cases hpk : cfg.primaryKey = "id"
    · simp [hpk, lookupAssoc_setAssoc_ne _ _ _ _ hk1]
    · simp [hpk, lookupAssoc_delAssoc_ne _ _ _ hk2, lookupAssoc_setAssoc_ne _ _ _ _ hk1]

theorem normalizeId_lookup_pk (cfg : SerializerConfig) (hash : JObj) {v : JVal}
    (hv : lookupAssoc hash cfg.primaryKey = some v) (hpk : cfg.primaryKey ≠ "id") :
    lookupAssoc (normalizeId cfg hash) cfg.primaryKey = none := by
  unfold normalizeId
  rw [hv]
  simp [hpk, lookupAssoc_delAssoc_self]

/-- C4: a serializer whose `attrs` hash maps an attribute name to a payload
key serializes the record's attribute value under that payload key, and
`extractSingle` reads the value found under that payload key into the
record's attribute. -/
theorem C4_attrs_hash (cfg : SerializerConfig) (name pk : String) :
    (∀ (shape : ModelShape) (payload : JObj) (v : JVal),
      cfg.attrs = [(name, pk)] →
      cfg.primaryKey = "id" →
      (∀ s, cfg.keyForAttribute s = s) →
      (∀ s k, cfg.keyForRelationship s k = s) →
      (∀ p, cfg.normalizePayload p = p) →
      name ≠ "id" → pk ≠ "id" → name ≠ pk →
      lookupAssoc payload pk = some v →
      lookupAssoc (extractSingle cfg shape payload) name = some v)
    ∧ (∀ (rec : RecordData) (v : JVal) (includeId : Bool),
      lookupAssoc cfg.attrs name = some pk →
      lookupAssoc rec.attrs name = some v →
      (∀ p ∈ rec.attrs, attrPayloadKey cfg p.1 = pk → p.1 = name) →
      (∀ e ∈ rec.belongsTos, e.polymorphic = false) →
      (∀ e ∈ rec.belongsTos, cfg.keyForRelationship e.name Kind.belongsTo ≠ pk) →
      (∀ e ∈ rec.hasManys, cfg.keyForRelationship e.name Kind.hasMany ≠ pk) →
      lookupAssoc (serialize cfg rec includeId) pk = some v) := by
  constructor
  · intro shape payload v ha hpk hkfa hkfr hnp hn1 hp1 hnp2 hv
    unfold extractSingle normalize
    rw [hnp payload,
      normalizeRelationships_id cfg shape hkfr,
      normalizeAttributes_id cfg shape hkfa]
    unfold normalizeUsingDeclaredMapping
    rw [ha, List.foldl_cons]
    have hv' : lookupAssoc (normalizeId cfg payload) pk = some v := by
      rw [normalizeId_lookup_ne cfg payload pk hp1 (by rw [hpk]; exact hp1), hv]
    rw [List.foldl_nil]
    simp only [hv']
    rw [lookupAssoc_delAssoc_ne _ _ _ hnp2, lookupAssoc_setAssoc_self]
  · intro rec v includeId hmap hval honly hnp hbt hhm
    simp only [serialize]
    rw [foldl_write_skip
        (fun j e => serializeHasMany cfg rec j { key := e.name, polymorphic := false })
        (fun e => cfg.keyForRelationship e.name Kind.hasMany) rec.hasManys pk
        (fun j e he => ⟨hmValue rec e.name, serializeHasMany_is_write cfg rec j he⟩) hhm]
    rw [foldl_write_skip
        (fun j e => serializeBelongsTo cfg rec j { key := e.name, polymorphic := e.polymorphic })
        (fun e => cfg.keyForRelationship e.name Kind.belongsTo) rec.belongsTos pk
        (fun j e he => ⟨btValue rec e.name,
          serializeBelongsTo_nonpoly cfg rec j
            { key := e.name, polymorphic := e.polymorphic } (hnp e he)⟩) hbt]
    apply foldl_write_hit
        (fun j p => serializeAttribute cfg rec j p.1)
        (fun p => attrPayloadKey cfg p.1)
        (fun p => (lookupAssoc rec.attrs p.1).getD JVal.jnull)
        rec.attrs pk v
        (fun j p _ => serializeAttribute_is_write cfg rec j p.1)
    · rcases lookupAssoc_some_exists hval with ⟨p, hp, hp1, hp2⟩
      refine ⟨p, hp, ?_⟩
      rw [hp1]
      unfold attrPayloadKey
      rw [hmap]
    · intro p hp hpk
      rw [honly p hp hpk, hval]
      rfl

/-- Witness for C4 on the attrs-hash serializer of the test suite. -/
theorem C4_attrs_hash_witness :
    lookupAssoc (extractSingle attrsHashCfg postShape attrsHashPayload) "title"
        = some (JVal.str "Rails is omakase")
      ∧ lookupAssoc (serialize attrsHashCfg attrsHashRec false) "title_payload_key"
        = some (JVal.str "Rails is omakase") :=
  ⟨(C4_attrs_hash attrsHashCfg "title" "title_payload_key").1 postShape attrsHashPayload
      (JVal.str "Rails is omakase") rfl rfl (fun _ => rfl) (fun _ _ => rfl) (fun _ => rfl)
      (by decide) (by decide) (by decide) rfl,
    (C4_attrs_hash attrsHashCfg "title" "title_payload_key").2 attrsHashRec
      (JVal.str "Rails is omakase") false rfl rfl (by decide) (by decide) (by decide)
      (by decide)⟩

/-- C5: a serializer with a custom `primaryKey` reads the record id from
that payload key during extraction, coerced to a string id (and removes the
custom key), and `serialize` with `includeId` emits the record's id under
that payload key instead of the default id key. -/
theorem C5_primaryKey (cfg : SerializerConfig) :
    (∀ (shape : ModelShape) (payload : JObj) (n : Int),
      cfg.attrs = [] →
      (∀ s, cfg.keyForAttribute s = s) →
      (∀ s k, cfg.keyForRelationship s k = s) →
      (∀ p, cfg.normalizePayload p = p) →
      lookupAssoc payload cfg.primaryKey = some (JVal.num n) →
      lookupAssoc (extractSingle cfg shape payload) "id" = some (JVal.str (toString n))
        ∧ (cfg.primaryKey ≠ "id" →
            lookupAssoc (extractSingle cfg shape payload) cfg.primaryKey = none))
    ∧ (∀ (rec : RecordData) (i : String),
      rec.id = some i →
      (∀ e ∈ rec.belongsTos, e.polymorphic = false) →
      (∀ p ∈ rec.attrs, attrPayloadKey cfg p.1 ≠ cfg.primaryKey) →
      (∀ e ∈ rec.belongsTos, cfg.keyForRelationship e.name Kind.belongsTo ≠ cfg.primaryKey) →
      (∀ e ∈ rec.hasManys, cfg.keyForRelationship e.name Kind.hasMany ≠ cfg.primaryKey) →
      lookupAssoc (serialize cfg rec true) cfg.primaryKey = some (JVal.str i)
        ∧ (cfg.primaryKey ≠ "id" →
            (∀ p ∈ rec.attrs, attrPayloadKey cfg p.1 ≠ "id") →
            (∀ e ∈ rec.belongsTos, cfg.keyForRelationship e.name Kind.belongsTo ≠ "id") →
            (∀ e ∈ rec.hasManys, cfg.keyForRelationship e.name Kind.hasMany ≠ "id") →
            lookupAssoc (serialize cfg rec true) "id" = none)) := by
  constructor
  · intro shape payload n ha hkfa hkfr hnp hv
    unfold extractSingle normalize
    rw [hnp payload,
      normalizeRelationships_id cfg shape hkfr,
      normalizeAttributes_id cfg shape hkfa,
      normalizeUsingDeclaredMapping_attrs_nil cfg ha]
    constructor
    · rw [normalizeId_lookup_id cfg payload hv]
      rfl
    · intro hpk
      exact normalizeId_lookup_pk cfg payload hv hpk
  · intro rec i hid hnp hattr hbt hhm
    have hskips : ∀ k : String,
        (∀ p ∈ rec.attrs, attrPayloadKey cfg p.1 ≠ k) →
        (∀ e ∈ rec.belongsTos, cfg.keyForRelationship e.name Kind.belongsTo ≠ k) →
        (∀ e ∈ rec.hasManys, cfg.keyForRelationship e.name Kind.hasMany ≠ k) →
        lookupAssoc (serialize cfg rec true) k
          = lookupAssoc
              (match rec.id with
                | some i => setAssoc [] cfg.primaryKey (JVal.str i)
                | none => ([] : JObj)) k := by
      intro k hattr' hbt' hhm'
      simp only [serialize]
      rw [foldl_write_skip
          (fun j e => serializeHasMany cfg rec j { key := e.name, polymorphic := false })
          (fun e => cfg.keyForRelationship e.name Kind.hasMany) rec.hasManys k
          (fun j e he => ⟨hmValue rec e.name, serializeHasMany_is_write cfg rec j he⟩) hhm']
      rw [foldl_write_skip
          (fun j e => serializeBelongsTo cfg rec j { key := e.name, polymorphic := e.polymorphic })
          (fun e => cfg.keyForRelationship e.name Kind.belongsTo) rec.belongsTos k
          (fun j e he => ⟨btValue rec e.name,
            serializeBelongsTo_nonpoly cfg rec j
              { key := e.name, polymorphic := e.polymorphic } (hnp e he)⟩) hbt']
      rw [foldl_write_skip
          (fun j p => serializeAttribute cfg rec j p.1)
          (fun p => attrPayloadKey cfg p.1) rec.attrs k
          (fun j p _ => ⟨(lookupAssoc rec.attrs p.1).getD JVal.jnull,
            serializeAttribute_is_write cfg rec j p.1⟩) hattr']
      rfl
    constructor
    · rw [hskips cfg.primaryKey hattr hbt hhm, hid, lookupAssoc_setAssoc_self]
    · intro hpk hattr' hbt' hhm'
      rw [hskips "id" hattr' hbt' hhm', hid,
        lookupAssoc_setAssoc_ne _ _ _ _ (Ne.symm hpk)]
      rfl

/-- Witness for C5 on the custom-primary-key serializer of the test suite. -/
theorem C5_primaryKey_witness :
    (lookupAssoc (extractSingle primaryKeyCfg postShape primaryKeyPayload) "id"
          = some (JVal.str (toString (1 : Int)))
        ∧ (primaryKeyCfg.primaryKey ≠ "id" →
            lookupAssoc (extractSingle primaryKeyCfg postShape primaryKeyPayload)
              primaryKeyCfg.primaryKey = none))
      ∧ lookupAssoc (serialize primaryKeyCfg primaryKeyRec true) primaryKeyCfg.primaryKey
        = some (JVal.str "1") :=
  ⟨(C5_primaryKey primaryKeyCfg).1 postShape primaryKeyPayload 1 rfl (fun _ => rfl)
      (fun _ _ => rfl) (fun _ => rfl) rfl,
    ((C5_primaryKey primaryKeyCfg).2 primaryKeyRec "1" rfl (by decide) (by decide)
      (by decide) (by decide)).1⟩

/-- C6: with overridden key hooks, `serializeAttribute` writes the attribute
value under `keyForAttribute(name)`, `serializeBelongsTo` and
`serializeHasMany` write the relationship ids under
`keyForRelationship(name)`, and `normalize` applies the same mappings in
reverse when extracting attributes and relationships from a payload. -/
theorem C6_key_hooks (cfg : SerializerConfig) :
    (∀ (rec : RecordData) (json : JObj) (aname : String) (v : JVal),
      lookupAssoc cfg.attrs aname = none →
      lookupAssoc rec.attrs aname = some v →
      lookupAssoc (serializeAttribute cfg rec json aname) (cfg.keyForAttribute aname)
        = some v)
    ∧ (∀ (rec : RecordData) (json : JObj) (rname : String) (ref : RecordRef) (i : String),
      btLookup rec rname = some (some ref) →
      ref.id = some i →
      lookupAssoc (serializeBelongsTo cfg rec json { key := rname, polymorphic := false })
          (cfg.keyForRelationship rname Kind.belongsTo)
        = some (JVal.str i))
    ∧ (∀ (rec : RecordData) (json : JObj) (rname : String) (refs : List RecordRef),
      hmLookup rec rname = some refs →
      lookupAssoc (serializeHasMany cfg rec json { key := rname, polymorphic := false })
          (cfg.keyForRelationship rname Kind.hasMany)
        = some (JVal.arr (refs.map (fun r => idValue r.id))))
    ∧ (∀ (payload : JObj) (aname rname : String) (kind : Kind) (v rv : JVal) (K KR : String),
      cfg.attrs = [] →
      cfg.primaryKey = "id" →
      cfg.keyForAttribute aname = K →
      cfg.keyForRelationship rname kind = KR →
      aname ≠ rname → K ≠ aname → K ≠ "id" →
      KR ≠ rname → KR ≠ "id" → KR ≠ aname → KR ≠ K →
      lookupAssoc payload K = some v →
      lookupAssoc payload KR = some rv →
      lookupAssoc
          (normalize cfg { attrNames := [aname], rels := [(rname, kind)] } payload) aname
          = some v
        ∧ lookupAssoc
            (normalize cfg { attrNames := [aname], rels := [(rname, kind)] } payload) rname
            = some rv) := by
  refine ⟨?_, ?_, ?_, ?_⟩
  · intro rec json aname v hnone hval
    rw [serializeAttribute_is_write]
    have hkey : attrPayloadKey cfg aname = cfg.keyForAttribute aname := by
      unfold attrPayloadKey
      rw [hnone]
    rw [hkey, hval, lookupAssoc_setAssoc_self]
    rfl
  · intro rec json rname ref i hbt hid
    rw [serializeBelongsTo_nonpoly cfg rec json { key := rname, polymorphic := false } rfl,
      lookupAssoc_setAssoc_self]
    unfold btValue
    rw [hbt]
    show some (idValue ref.id) = some (JVal.str i)
    rw [hid]
    rfl
  · intro rec json rname refs hhm
    unfold serializeHasMany
    rw [hhm]
    simp [lookupAssoc_setAssoc_self]
  · intro payload aname rname kind v rv K KR ha hpk hK hKR har hKa hKid hKRr hKRid hKRa hKRK hv hrv
    have hK0 : lookupAssoc (normalizeId cfg payload) K = some v := by
      rw [normalizeId_lookup_ne cfg payload K hKid (by rw [hpk]; exact hKid)]
      exact hv
    have hKR0 : lookupAssoc (normalizeId cfg payload) KR = some rv := by
      rw [normalizeId_lookup_ne cfg payload KR hKRid (by rw [hpk]; exact hKRid)]
      exact hrv
    have hattrs_eq :
        normalizeAttributes cfg { attrNames := [aname], rels := [(rname, kind)] }
            (normalizeId cfg payload)
          = delAssoc (setAssoc (normalizeId cfg payload) aname v) K := by
      unfold normalizeAttributes
      simp [hK, hKa, hK0]
    have hKR1 : lookupAssoc (delAssoc (setAssoc (normalizeId cfg payload) aname v) K) KR
        = some rv := by
      rw [lookupAssoc_delAssoc_ne _ _ _ hKRK, lookupAssoc_setAssoc_ne _ _ _ _ hKRa, hKR0]
    have hrels_eq :
        normalizeRelationships cfg { attrNames := [aname], rels := [(rname, kind)] }
            (delAssoc (setAssoc (normalizeId cfg payload) aname v) K)
          = delAssoc
              (setAssoc (delAssoc (setAssoc (normalizeId cfg payload) aname v) K) rname rv)
              KR := by
      unfold normalizeRelationships
      simp [hKR, hKRr, hKR1]
    unfold normalize
    rw [normalizeUsingDeclaredMapping_attrs_nil cfg ha, hattrs_eq, hrels_eq]
    constructor
    · rw [lookupAssoc_delAssoc_ne _ _ _ (Ne.symm hKRa),
        lookupAssoc_setAssoc_ne _ _ _ _ har,
        lookupAssoc_delAssoc_ne _ _ _ (Ne.symm hKa),
        lookupAssoc_setAssoc_self]
    · rw [lookupAssoc_delAssoc_ne _ _ _ (Ne.symm hKRr),
        lookupAssoc_setAssoc_self]

/-- Witness for C6 on the upcasing key hooks of the test suite. -/
theorem C6_key_hooks_witness :
    lookupAssoc (serializeAttribute upperKeysCfg upperKeysRec [] "title")
        (upperKeysCfg.keyForAttribute "title") = some (JVal.str "Rails is omakase")
      ∧ lookupAssoc
          (serializeBelongsTo upperKeysCfg upperKeysRec [] { key := "post", polymorphic := false })
          (upperKeysCfg.keyForRelationship "post" Kind.belongsTo) = some (JVal.str "1")
      ∧ lookupAssoc
          (serializeHasMany upperKeysCfg upperKeysRec [] { key := "comments", polymorphic := false })
          (upperKeysCfg.keyForRelationship "comments" Kind.hasMany)
        = some (JVal.arr [JVal.str "1"])
      ∧ (lookupAssoc
            (normalize upperKeysCfg { attrNames := ["title"], rels := [("comments", Kind.hasMany)] }
              upperKeysPayload) "title" = some (JVal.str "Rails is omakase")
          ∧ lookupAssoc
              (normalize upperKeysCfg
                { attrNames := ["title"], rels := [("comments", Kind.hasMany)] }
                upperKeysPayload) "comments" = some (JVal.arr [JVal.str "1"])) :=
  ⟨(C6_key_hooks upperKeysCfg).1 upperKeysRec [] "title" (JVal.str "Rails is omakase")
      rfl rfl,
    (C6_key_hooks upperKeysCfg).2.1 upperKeysRec [] "post"
      { id := some "1", typeKey := "post" } "1" rfl rfl,
    (C6_key_hooks upperKeysCfg).2.2.1 upperKeysRec [] "comments"
      [{ id := some "1", typeKey := "comment" }] rfl,
    (C6_key_hooks upperKeysCfg).2.2.2 upperKeysPayload "title" "comments" Kind.hasMany
      (JVal.str "Rails is omakase") (JVal.arr [JVal.str "1"]) "TITLE" "COMMENTS"
      rfl rfl (by decide) (by decide) (by decide) (by decide) (by decide) (by decide)
      (by decide) (by decide) (by decide) rfl rfl⟩

/-- C7: for a polymorphic relationship, `serializeBelongsTo` invokes the
`serializePolymorphicType` hook after writing the related record's id, so
with the test suite's hook the JSON holds both the id under the relationship
key and the related record's `typeKey` under the suffixed key. -/
theorem C7_polymorphic_hook (cfg : SerializerConfig) (rec : RecordData) (json : JObj)
    (rname : String) (ref : RecordRef) (i : String)
    (hbt : btLookup rec rname = some (some ref)) (hid : ref.id = some i) :
    serializeBelongsTo cfg rec json { key := rname, polymorphic := true }
        = cfg.serializePolymorphicType rec
            (setAssoc json (cfg.keyForRelationship rname Kind.belongsTo) (JVal.str i))
            { key := rname, polymorphic := true }
      ∧ (cfg.serializePolymorphicType = typeKeyHook →
          cfg.keyForRelationship rname Kind.belongsTo = rname →
          rname ++ "TYPE" ≠ rname →
          lookupAssoc (serializeBelongsTo cfg rec json { key := rname, polymorphic := true })
              rname = some (JVal.str i)
            ∧ lookupAssoc (serializeBelongsTo cfg rec json { key := rname, polymorphic := true })
                (rname ++ "TYPE") = some (JVal.str ref.typeKey)) := by
  have hfirst : serializeBelongsTo cfg rec json { key := rname, polymorphic := true }
      = cfg.serializePolymorphicType rec
          (setAssoc json (cfg.keyForRelationship rname Kind.belongsTo) (JVal.str i))
          { key := rname, polymorphic := true } := by
    unfold serializeBelongsTo
    rw [hbt]
    show cfg.serializePolymorphicType rec
        (setAssoc json (cfg.keyForRelationship rname Kind.belongsTo) (idValue ref.id))
        { key := rname, polymorphic := true }
      = cfg.serializePolymorphicType rec
          (setAssoc json (cfg.keyForRelationship rname Kind.belongsTo) (JVal.str i))
          { key := rname, polymorphic := true }
    rw [hid]
    rfl
  refine ⟨hfirst, ?_⟩
  intro hhook hkey hne
  rw [hfirst, hhook]
  unfold typeKeyHook
  rw [hbt, hkey]
  constructor
  · rw [lookupAssoc_setAssoc_ne _ _ _ _ (Ne.symm hne), lookupAssoc_setAssoc_self]
  · rw [lookupAssoc_setAssoc_self]

/-- Witness for C7 on the test suite's polymorphic hook setup. -/
theorem C7_polymorphic_hook_witness :
    serializeBelongsTo polyHookCfg polyRec [] { key := "post", polymorphic := true }
        = polyHookCfg.serializePolymorphicType polyRec
            (setAssoc [] (polyHookCfg.keyForRelationship "post" Kind.belongsTo) (JVal.str "1"))
            { key := "post", polymorphic := true }
      ∧ (lookupAssoc (serializeBelongsTo polyHookCfg polyRec [] { key := "post", polymorphic := true })
            "post" = some (JVal.str "1")
          ∧ lookupAssoc
              (serializeBelongsTo polyHookCfg polyRec [] { key := "post", polymorphic := true })
              ("post" ++ "TYPE") = some (JVal.str "post")) :=
  ⟨(C7_polymorphic_hook polyHookCfg polyRec [] "post"
      { id := some "1", typeKey := "post" } "1" rfl rfl).1,
    (C7_polymorphic_hook polyHookCfg polyRec [] "post"
      { id := some "1", typeKey := "post" } "1" rfl rfl).2 rfl rfl (by decide)⟩

/-- C8: `extractSingle` first applies the `normalizePayload` hook to the raw
payload and then extracts the record's id and attributes from the hook's
return value, so a hook returning a nested sub-object causes extraction to
operate on that sub-object. -/
theorem C8_normalizePayload_first (cfg : SerializerConfig) (shape : ModelShape)
    (payload inner : JObj) (n : Int) (k : String) (v : JVal)
    (ha : cfg.attrs = [])
    (hpk : cfg.primaryKey = "id")
    (hkfa : ∀ s, cfg.keyForAttribute s = s)
    (hkfr : ∀ s kk, cfg.keyForRelationship s kk = s)
    (hnp : cfg.normalizePayload payload = inner)
    (hid : lookupAssoc inner "id" = some (JVal.num n))
    (hk : k ≠ "id")
    (hv : lookupAssoc inner k = some v) :
    lookupAssoc (extractSingle cfg shape payload) "id" = some (JVal.str (toString n))
      ∧ lookupAssoc (extractSingle cfg shape payload) k = some v := by
  unfold extractSingle normalize
  rw [hnp,
    normalizeRelationships_id cfg shape hkfr,
    normalizeAttributes_id cfg shape hkfa,
    normalizeUsingDeclaredMapping_attrs_nil cfg ha]
  constructor
  · rw [normalizeId_lookup_id cfg inner (by rw [hpk]; exact hid)]
    rfl
  · rw [normalizeId_lookup_ne cfg inner k hk (by rw [hpk]; exact hk)]
    exact hv

/-- Witness for C8 on the test suite's response-unwrapping hook. -/
theorem C8_normalizePayload_first_witness :
    lookupAssoc (extractSingle responseCfg postShape responsePayload) "id"
        = some (JVal.str (toString (1 : Int)))
      ∧ lookupAssoc (extractSingle responseCfg postShape responsePayload) "title"
        = some (JVal.str "Rails is omakase") :=
  C8_normalizePayload_first responseCfg postShape responsePayload
    [("id", JVal.num 1), ("title", JVal.str "Rails is omakase")] 1 "title"
    (JVal.str "Rails is omakase") rfl rfl (fun _ => rfl) (fun _ _ => rfl) rfl rfl
    (by decide) rfl

end EmberData
